import Mathlib

/-!
Verification of the `openclaw-mailguard` content-security core against its
natural-language specification.

The TypeScript sources are shallowly embedded: JS `Map`s become
insertion-ordered association lists, JS `Set`s become de-duplicating lists,
timestamps (`Date`) become `Nat` milliseconds supplied explicitly as a `now`
argument, and JS numbers that are provably integral in the code are `Nat`/`Int`.
External library calls that are not part of the repository (the regular
expression engine's Unicode word splitting, `String.prototype.normalize`)
are passed in as explicit function parameters, so every theorem quantifies
over the library's possible behaviour; concrete instantiations used in
witnesses and counterexamples pick the behaviour the real library has on the
ASCII/BMP inputs involved (documented at each use).
-/

namespace MailGuard

/-! ## Generic JS-semantics helpers -/

/-- Insertion-ordered association-list lookup: first entry wins,
like `Map.prototype.get`. -/
def mapGet {α : Type} : List (String × α) → String → Option α
  | [], _ => none
  | e :: rest, k => if e.1 == k then some e.2 else mapGet rest k

/-- `Map.prototype.set`: replace the existing entry in place if the key is
present, otherwise append at the end (JS maps preserve insertion order). -/
def mapSet {α : Type} (m : List (String × α)) (k : String) (v : α) :
    List (String × α) :=
  match m with
  | [] => [(k, v)]
  | e :: rest =>
    if e.1 == k then (k, v) :: rest else e :: mapSet rest k v

/-- `Map.prototype.delete`: remove the entry with the given key
(keys are unique in a JS map, so removing the first occurrence suffices). -/
def mapDelete {α : Type} (m : List (String × α)) (k : String) :
    List (String × α) :=
  match m with
  | [] => []
  | e :: rest => if e.1 == k then rest else e :: mapDelete rest k

/-- `Set.prototype.add`: append if not already present. -/
def setAdd (s : List String) (x : String) : List String :=
  if s.contains x then s else s ++ [x]

/-- Build a JS `Set` from an array: de-duplicate keeping first occurrences. -/
def setOfList (l : List String) : List String :=
  l.foldl setAdd []

/-- Check whether `sub` occurs as a contiguous block of `l`. -/
def infixCheck (sub : List Char) : List Char → Bool
  | [] => sub.isEmpty
  | c :: rest => sub.isPrefixOf (c :: rest) || infixCheck sub rest

/-- `String.prototype.includes` (substring containment). -/
def containsSubstr (s sub : String) : Bool :=
  infixCheck sub.data s.data

/-- `Math.round` on an exact rational: round half toward positive infinity. -/
def jsRound (q : ℚ) : ℤ :=
  ⌊q + 1/2⌋

/-- The UTF-16 length of a string given as code points (JS `String.length`
counts UTF-16 code units: astral code points count twice). -/
def utf16Len (w : List Char) : Nat :=
  w.foldl (fun acc c => acc + (if c.toNat > 0xFFFF then 2 else 1)) 0

/-- ASCII-only lower-casing of one character. The JS sources apply
`toLowerCase` to tool names and attribution lines; on the ASCII inputs used
throughout this development the two agree (full Unicode lower-casing of the
handful of exotic cased letters such as U+212A is outside the model). -/
def asciiLower (c : Char) : Char :=
  if 'A' ≤ c ∧ c ≤ 'Z' then Char.ofNat (c.toNat + 32) else c

/-- ASCII-only lower-casing of a string. -/
def lowerStr (s : String) : String :=
  String.mk (s.data.map asciiLower)

/-! ## Approval Workflow Engine (`src/workflows/lobster_adapter.ts`)

The `LobsterAdapter` keeps a `Map` of workflows and mutates one workflow per
operation; a missing workflow id throws.  We embed the per-workflow state
transitions (the code each method runs after its successful lookup), which is
what every claim about the engine quantifies over: operations on other
workflows never touch this one, and `checkExpiredWorkflows` applies its
per-workflow transition independently to each stored workflow. -/

inductive StepStatus where
  | pending
  | inProgress
  | completed
  | skipped
  | failed
deriving DecidableEq, Repr

inductive StepType where
  | approval
  | action
  | condition
  | wait
deriving DecidableEq, Repr

inductive WfStatus where
  | pending
  | inProgress
  | completed
  | failed
  | cancelled
deriving DecidableEq, Repr

/-- One step's `result` payload for approval steps
(`LobsterApprovalStep.result`). -/
structure StepResult where
  approved : Bool
  approvedBy : Option String
  approvedAt : Option Nat
  comment : Option String
deriving DecidableEq, Repr

/-- `LobsterStep` (the display-only `config` strings — title, description,
preview, timeout copy — are omitted; no operation reads them back). -/
structure LStep where
  id : String
  name : String
  type : StepType
  status : StepStatus
  result : Option StepResult
  error : Option String
deriving DecidableEq, Repr

/-- `LobsterWorkflow` (the free-form `context` map and the `name`/`template`
strings are omitted; no state transition depends on them). -/
structure LWorkflow where
  id : String
  steps : List LStep
  status : WfStatus
  createdAt : Nat
  updatedAt : Nat
deriving DecidableEq, Repr

/-- A planned action, as consumed by `createApprovalWorkflow`. -/
structure PlannedAction where
  id : String
  type : String
  description : String
  requiresApproval : Bool
deriving DecidableEq, Repr

/-- `createApprovalWorkflow`: one `approval`-type `pending` step per action
with `requiresApproval`, workflow status `pending`. -/
def createApprovalWorkflow (workflowId : String) (actions : List PlannedAction)
    (now : Nat) : LWorkflow :=
  { id := workflowId
    steps := (actions.filter (fun a => a.requiresApproval)).map (fun a =>
      { id := "step-" ++ a.id
        name := "Approve: " ++ a.type
        type := StepType.approval
        status := StepStatus.pending
        result := none
        error := none })
    status := WfStatus.pending
    createdAt := now
    updatedAt := now }

/-- Update the first list element satisfying `p` (JS `find` returns a
reference that the caller mutates in place). -/
def updateFirst {α : Type} (p : α → Bool) (f : α → α) : List α → List α
  | [] => []
  | x :: xs => if p x then f x :: xs else x :: updateFirst p f xs

/-- `startWorkflow` after its lookup: workflow → `in_progress`, first
`pending` step → `in_progress`. -/
def startWorkflow (wf : LWorkflow) (now : Nat) : LWorkflow :=
  { wf with
    status := WfStatus.inProgress
    updatedAt := now
    steps := updateFirst (fun s => s.status == StepStatus.pending)
      (fun s => { s with status := StepStatus.inProgress }) wf.steps }

/-- The result pair `{ workflowComplete, allApproved }` of `resolveApproval`. -/
structure ResolveOutcome where
  workflowComplete : Bool
  allApproved : Bool
deriving DecidableEq, Repr

/-- The mutation body of `resolveApproval` (run once its lookups succeed):
mark the addressed step `completed`/`failed`, then either finish the
workflow, advance the next `pending` step, or (on denial) skip every
remaining `pending`/`in_progress` step and fail the workflow. -/
def resolveApprovalCore (wf : LWorkflow) (stepId : String) (approved : Bool)
    (approvedBy : String) (comment : Option String) (now : Nat) :
    LWorkflow × ResolveOutcome :=
  let steps1 := updateFirst (fun s => s.id == stepId)
    (fun s =>
      { s with
        status := if approved then StepStatus.completed else StepStatus.failed
        result := some { approved := approved, approvedBy := some approvedBy,
                         approvedAt := some now, comment := comment } })
    wf.steps
  let pendingCount := (steps1.filter (fun s =>
    s.status == StepStatus.pending || s.status == StepStatus.inProgress)).length
  let failedCount := (steps1.filter (fun s =>
    s.status == StepStatus.failed)).length
  let wf1 :=
    if pendingCount == 0 then
      { wf with
        steps := steps1
        updatedAt := now
        status := if failedCount > 0 then WfStatus.failed else WfStatus.completed }
    else if approved then
      { wf with
        updatedAt := now
        steps := updateFirst (fun s => s.status == StepStatus.pending)
          (fun s => { s with status := StepStatus.inProgress }) steps1 }
    else
      { wf with
        updatedAt := now
        steps := steps1.map (fun s =>
          if s.status == StepStatus.pending || s.status == StepStatus.inProgress
          then { s with status := StepStatus.skipped } else s)
        status := WfStatus.failed }
  (wf1,
   { workflowComplete :=
       wf1.status == WfStatus.completed || wf1.status == WfStatus.failed
     allApproved := wf1.status == WfStatus.completed })

/-- `resolveApproval` after the workflow lookup: the source throws when
`stepId` matches no step or a non-`approval` step (`none` here); otherwise
it runs the mutation body. -/
def resolveApproval (wf : LWorkflow) (stepId : String) (approved : Bool)
    (approvedBy : String) (comment : Option String) (now : Nat) :
    Option (LWorkflow × ResolveOutcome) :=
  match wf.steps.find? (fun s => s.id == stepId) with
  | none => none
  | some s =>
    if s.type == StepType.approval then
      some (resolveApprovalCore wf stepId approved approvedBy comment now)
    else none

/-- `cancelWorkflow` after its lookup: status → `cancelled`, every
`pending`/`in_progress` step → `skipped` carrying the reason. -/
def cancelWorkflow (wf : LWorkflow) (reason : String) (now : Nat) : LWorkflow :=
  { wf with
    status := WfStatus.cancelled
    updatedAt := now
    steps := wf.steps.map (fun s =>
      if s.status == StepStatus.pending || s.status == StepStatus.inProgress
      then { s with status := StepStatus.skipped, error := some reason }
      else s) }

/-- The per-workflow effect of `checkExpiredWorkflows` at time `now` with the
configured timeout (seconds): an `in_progress` workflow older than the
timeout is failed and its non-terminal steps are failed with a timeout
error; every other workflow is untouched. -/
def expireWorkflow (wf : LWorkflow) (timeout : Nat) (now : Nat) : LWorkflow :=
  if wf.status == WfStatus.inProgress && now - wf.createdAt > timeout * 1000 then
    { wf with
      status := WfStatus.failed
      updatedAt := now
      steps := wf.steps.map (fun s =>
        if s.status == StepStatus.pending || s.status == StepStatus.inProgress
        then { s with status := StepStatus.failed,
                      error := some "Approval timeout exceeded" }
        else s) }
  else wf

/-! ## Tool Firewall (`src/policy/tool_firewall.ts`) -/

/-- `SAFE_TOOLS`. -/
def SAFE_TOOLS : List String :=
  ["summarize", "summarize_text", "classify", "classify_email",
   "extract_entities", "analyze_sentiment", "translate", "search_knowledge",
   "draft_reply", "draft_email", "preview_action", "format_text",
   "propose_label", "suggest_labels", "categorize",
   "check_availability", "list_events",
   "lookup_contact", "search_contacts"]

/-- `APPROVAL_REQUIRED_TOOLS`. -/
def APPROVAL_REQUIRED_TOOLS : List String :=
  ["send_email", "send_reply", "forward_email", "apply_label", "remove_label",
   "move_to_folder", "archive_email", "mark_read", "mark_unread",
   "create_draft", "update_draft", "delete_draft", "create_calendar_event",
   "update_calendar_event", "create_contact", "update_contact"]

/-- `HARD_DENIED_TOOLS`: tools that are always denied for Gmail-origin
sessions and can never be bypassed. -/
def HARD_DENIED_TOOLS : List String :=
  ["browser_control", "browser_navigate", "browser_click", "browser_type",
   "browser_screenshot", "puppeteer", "playwright", "selenium",
   "exec", "shell", "bash", "powershell", "terminal", "run_command",
   "execute_code", "eval", "code_execute",
   "filesystem_write", "filesystem_edit", "filesystem_delete", "write_file",
   "edit_file", "delete_file", "create_file", "patch", "patch_file",
   "web_fetch_unrestricted", "http_request", "make_request",
   "delete_email", "permanently_delete", "empty_trash",
   "update_settings", "change_password", "create_filter", "delete_filter",
   "manage_forwarding",
   "oauth_request", "store_credentials", "manage_tokens"]

/-- `normalizeToolName`: lower-case, then replace every character outside
`[a-z0-9_]` by an underscore (`.replace(/[^a-z0-9_]/g, '_')` — the
characters are replaced, not removed). -/
def normalizeToolName (tool : String) : String :=
  String.mk ((lowerStr tool).data.map (fun c =>
    if ('a' ≤ c ∧ c ≤ 'z') ∨ ('0' ≤ c ∧ c ≤ '9') ∨ c = '_' then c else '_'))

/-- `getSafeAlternatives`: fixed lookup table keyed by the normalized name. -/
def getSafeAlternatives (tool : String) : List String :=
  let t := normalizeToolName tool
  if t = "exec" then ["No direct alternative - describe the desired outcome instead"]
  else if t = "shell" then ["No direct alternative - describe the desired outcome instead"]
  else if t = "browser_control" then ["web_fetch (with restrictions)", "describe what information is needed"]
  else if t = "browser_navigate" then ["Provide the URL for manual review"]
  else if t = "filesystem_write" then ["draft_reply (to share content in email)"]
  else if t = "filesystem_edit" then ["draft_reply (to share edits in email)"]
  else if t = "delete_email" then ["archive_email (with approval)", "apply_label (to mark for deletion)"]
  else if t = "send_email" then ["draft_email (creates draft for review)", "draft_reply"]
  else if t = "forward_email" then ["draft_email (with forwarded content for review)"]
  else []

/-- `ApprovalRequest` status values. -/
inductive ApprovalStatus where
  | pending
  | approved
  | denied
  | expired
deriving DecidableEq, Repr

/-- `ApprovalRequest` (the risk-context snapshot, serialized parameters and
preview strings are display-only and omitted). -/
structure ApprovalRequest where
  id : String
  action : String
  createdAt : Nat
  expiresAt : Nat
  status : ApprovalStatus
  resolvedBy : Option String
  resolvedAt : Option Nat
deriving DecidableEq, Repr

/-- Provenance source values of a session. -/
inductive SourceKind where
  | gmail
  | direct
  | api
  | hook
deriving DecidableEq, Repr

/-- One entry of the append-only tool-call history. -/
structure ToolCallRecord where
  tool : String
  timestamp : Nat
  decision : String
  reason : String
deriving DecidableEq, Repr

/-- `SessionPolicy`. -/
structure SessionPolicy where
  sessionId : String
  source : SourceKind
  riskScore : Nat
  isGmailOrigin : Bool
  isAllowlistedSender : Bool
  createdAt : Nat
  deniedTools : List String
  approvalRequiredActions : List String
  pendingApprovals : List ApprovalRequest
  toolCallHistory : List ToolCallRecord
deriving DecidableEq, Repr

/-- `EmailProvenance` (the fields `initializeSession` reads). -/
structure EmailProvenance where
  source : SourceKind
  isAllowlistedDomain : Bool
deriving DecidableEq, Repr

/-- The `ApprovalRateLimiter`'s per-key entry. -/
structure RateEntry where
  count : Nat
  windowStart : Nat
deriving DecidableEq, Repr

/-- `ApprovalRateLimiter` constants: max 10 resolutions per rolling minute. -/
def rateMaxAttempts : Nat := 10

/-- `ApprovalRateLimiter.windowMs`. -/
def rateWindowMs : Nat := 60000

/-- `ApprovalRateLimiter.check`: returns the verdict together with the
updated attempts map (the entry is created/reset or incremented only on
success; a rejected call mutates nothing). -/
def rateCheck (attempts : List (String × RateEntry)) (sessionId : String)
    (now : Nat) : Bool × List (String × RateEntry) :=
  match mapGet attempts sessionId with
  | none => (true, mapSet attempts sessionId { count := 1, windowStart := now })
  | some entry =>
    if now - entry.windowStart > rateWindowMs then
      (true, mapSet attempts sessionId { count := 1, windowStart := now })
    else if entry.count ≥ rateMaxAttempts then
      (false, attempts)
    else
      (true, mapSet attempts sessionId
        { entry with count := entry.count + 1 })

/-- The configuration fields the firewall reads. -/
structure FirewallConfig where
  deniedTools : List String
  approvalRequiredActions : List String
  lobsterEnabled : Bool
deriving DecidableEq, Repr

/-- `ToolFirewall` state. -/
structure ToolFirewall where
  config : FirewallConfig
  sessionPolicies : List (String × SessionPolicy)
  rateAttempts : List (String × RateEntry)
deriving DecidableEq, Repr

/-- `ToolFirewall.maxSessions`. -/
def maxSessions : Nat := 10000

/-- The oldest-session scan of `initializeSession`: fold over the map in
iteration order keeping the first entry whose `createdAt` is strictly
smaller than the best so far (`oldestTime` starts at `Infinity`, so the
first entry always wins initially). -/
def findOldest (m : List (String × SessionPolicy)) :
    Option (String × Nat) :=
  m.foldl (fun acc e =>
    match acc with
    | none => some (e.1, e.2.createdAt)
    | some (_, t) => if e.2.createdAt < t then some (e.1, e.2.createdAt) else acc)
    none

/-- JS truthiness of the `oldestId` variable: `undefined` and the empty
string are both falsy, so `if (oldestId)` skips the eviction for them. -/
def truthyId (o : Option (String × Nat)) : Bool :=
  match o with
  | none => false
  | some (id, _) => !(id == "")

/-- The fresh `SessionPolicy` record `initializeSession` builds: the
statically configured denied/approval sets (as JS `Set`s) with every
hard-denied tool added to the denied set. -/
def freshPolicy (cfg : FirewallConfig) (sessionId : String)
    (provenance : Option EmailProvenance) (riskScore : Option Nat)
    (now : Nat) : SessionPolicy :=
  { sessionId := sessionId
    source := (provenance.map (fun p => p.source)).getD SourceKind.direct
    riskScore := riskScore.getD 0
    isGmailOrigin := (provenance.map (fun p => p.source)).getD SourceKind.direct
      == SourceKind.gmail
    isAllowlistedSender := (provenance.map (fun p => p.isAllowlistedDomain)).getD false
    createdAt := now
    deniedTools := HARD_DENIED_TOOLS.foldl setAdd (setOfList cfg.deniedTools)
    approvalRequiredActions := setOfList cfg.approvalRequiredActions
    pendingApprovals := []
    toolCallHistory := [] }

/-- `initializeSession`: evict the oldest session when at capacity (guarded
by the truthiness check on `oldestId`), then insert the fresh policy. -/
def initializeSession (fw : ToolFirewall) (sessionId : String)
    (provenance : Option EmailProvenance) (riskScore : Option Nat)
    (now : Nat) : ToolFirewall :=
  let afterEvict :=
    if fw.sessionPolicies.length ≥ maxSessions then
      let oldest := findOldest fw.sessionPolicies
      if truthyId oldest then
        mapDelete fw.sessionPolicies ((oldest.map Prod.fst).getD "")
      else fw.sessionPolicies
    else fw.sessionPolicies
  { fw with
    sessionPolicies := mapSet afterEvict sessionId
      (freshPolicy fw.config sessionId provenance riskScore now) }

/-- `denialType` values of a policy decision. -/
inductive DenialType where
  | hard
  | soft
deriving DecidableEq, Repr

/-- `approvalType` values of a policy decision. -/
inductive ApprovalType where
  | lobster
  | execApproval
deriving DecidableEq, Repr

/-- `ToolPolicyDecision`. -/
structure ToolPolicyDecision where
  allowed : Bool
  reason : String
  requiresApproval : Bool
  denialType : Option DenialType
  approvalType : Option ApprovalType
  alternatives : Option (List String)
deriving DecidableEq, Repr

/-- `ToolPolicyContext` (the fields `checkToolAccess` reads). -/
structure ToolPolicyContext where
  sessionId : String
  requestedTool : String
deriving DecidableEq, Repr

/-- Append a record to one session's tool-call history. -/
def pushHistory (fw : ToolFirewall) (sessionId : String) (record : ToolCallRecord) :
    ToolFirewall :=
  { fw with
    sessionPolicies :=
      updateFirst (fun e => e.1 == sessionId)
        (fun e => (e.1, { e.2 with toolCallHistory := e.2.toolCallHistory ++ [record] }))
        fw.sessionPolicies }

/-- `checkToolAccess`: the provenance-aware decision procedure.  Returns the
decision together with the updated firewall (history append). -/
def checkToolAccess (fw : ToolFirewall) (ctx : ToolPolicyContext) (now : Nat) :
    ToolPolicyDecision × ToolFirewall :=
  match mapGet fw.sessionPolicies ctx.sessionId with
  | none =>
    ({ allowed := true
       reason := "No Gmail-origin policy active for this session"
       requiresApproval := false
       denialType := none
       approvalType := none
       alternatives := none }, fw)
  | some policy =>
    let tool := normalizeToolName ctx.requestedTool
    if HARD_DENIED_TOOLS.contains tool || policy.deniedTools.contains tool then
      ({ allowed := false
         reason := "Tool \"" ++ tool ++ "\" is not available for email-triggered sessions. This is a security restriction that cannot be bypassed."
         requiresApproval := false
         denialType := some DenialType.hard
         approvalType := none
         alternatives := some (getSafeAlternatives tool) },
       pushHistory fw ctx.sessionId
         { tool := tool, timestamp := now, decision := "denied", reason := "hard_denial" })
    else if SAFE_TOOLS.contains tool then
      ({ allowed := true
         reason := "Tool is approved for Gmail-origin sessions"
         requiresApproval := false
         denialType := none
         approvalType := none
         alternatives := none },
       pushHistory fw ctx.sessionId
         { tool := tool, timestamp := now, decision := "allowed", reason := "safe_tool" })
    else if APPROVAL_REQUIRED_TOOLS.contains tool
        || policy.approvalRequiredActions.contains tool then
      ({ allowed := false
         reason := "Tool \"" ++ tool ++ "\" requires operator approval before execution"
         requiresApproval := true
         denialType := some DenialType.soft
         approvalType := some (if fw.config.lobsterEnabled then ApprovalType.lobster
                               else ApprovalType.execApproval)
         alternatives := none },
       pushHistory fw ctx.sessionId
         { tool := tool, timestamp := now, decision := "pending_approval",
           reason := "requires_approval" })
    else if policy.isGmailOrigin then
      ({ allowed := false
         reason := "Tool \"" ++ tool ++ "\" is not in the allowlist for email-triggered sessions. Only explicitly approved tools are permitted."
         requiresApproval := true
         denialType := some DenialType.soft
         approvalType := none
         alternatives := none },
       pushHistory fw ctx.sessionId
         { tool := tool, timestamp := now, decision := "denied",
           reason := "not_in_allowlist" })
    else
      ({ allowed := true
         reason := "Tool allowed for non-email-triggered sessions"
         requiresApproval := false
         denialType := none
         approvalType := none
         alternatives := none },
       pushHistory fw ctx.sessionId
         { tool := tool, timestamp := now, decision := "allowed",
           reason := "non_gmail_session" })

/-- `ToolFirewall.resolveApproval`: look up the session, consult the rate
limiter (failing closed without any mutation when the window is exhausted),
find the approval by id anywhere in the session's `pendingApprovals` list,
and overwrite its status/resolver/timestamp. -/
def fwResolveApproval (fw : ToolFirewall) (sessionId approvalId : String)
    (approved : Bool) (resolvedBy : String) (now : Nat) : Bool × ToolFirewall :=
  match mapGet fw.sessionPolicies sessionId with
  | none => (false, fw)
  | some policy =>
    let rc := rateCheck fw.rateAttempts sessionId now
    if !rc.1 then (false, fw)
    else
      let fw1 := { fw with rateAttempts := rc.2 }
      match policy.pendingApprovals.find? (fun a => a.id == approvalId) with
      | none => (false, fw1)
      | some _ =>
        (true,
         { fw1 with
           sessionPolicies :=
             updateFirst (fun e => e.1 == sessionId)
               (fun e => (e.1,
                 { e.2 with
                   pendingApprovals :=
                     updateFirst (fun a => a.id == approvalId)
                       (fun a =>
                         { a with
                           status := if approved then ApprovalStatus.approved
                                     else ApprovalStatus.denied
                           resolvedBy := some resolvedBy
                           resolvedAt := some now })
                       e.2.pendingApprovals }))
               fw1.sessionPolicies })

/-- Number of `in_progress` steps in a step list. -/
def ipCount (l : List LStep) : Nat :=
  (l.filter (fun s => s.status == StepStatus.inProgress)).length

/-- Number of `in_progress` steps of a workflow. -/
def inProgressCount (wf : LWorkflow) : Nat :=
  ipCount wf.steps

/-- The sequential-execution invariant: at most one step is `in_progress`. -/
def atMostOneInProgress (wf : LWorkflow) : Prop :=
  inProgressCount wf ≤ 1

instance (wf : LWorkflow) : Decidable (atMostOneInProgress wf) := by
  unfold atMostOneInProgress; infer_instance

/-! ## Risk Heuristics Engine (`src/risk/heuristics.ts`)

The pattern corpus pairs each rule with a compiled regular expression; the
regex engine is not part of the repository, so `assessRisk` is parameterized
by the rule table and by a matcher oracle giving, for each rule, the list of
matches `matchAll` yields on the (truncated) body text.  Every rule weight in
the corpus (`heuristics.ts` + `multilingual-patterns.ts`) is a non-negative
integer literal (5–50), so weights are `Nat`. -/

/-- One entry of a compiled pattern rule (regex itself lives in the oracle). -/
structure PatternDef where
  type : String
  severity : String
  description : String
  weight : Nat
deriving DecidableEq, Repr

/-- One `matchAll` result: matched text and UTF-16 start index. -/
structure MatchEv where
  text : String
  index : Nat
deriving DecidableEq, Repr

/-- `RiskSignal`. -/
structure RiskSignal where
  type : String
  severity : String
  description : String
  evidence : Option String
  location : Option (Nat × Nat)
deriving DecidableEq, Repr

/-- `ExtractedLink`. -/
structure ExtractedLink where
  url : String
  domain : String
  normalizedUrl : String
  suspicious : Bool
  suspicionReasons : Option (List String)
deriving DecidableEq, Repr

/-- Authentication results parsed from headers (`pass`/`fail`/... strings). -/
structure AuthResults where
  spf : Option String
  dkim : Option String
  dmarc : Option String
deriving DecidableEq, Repr

/-- The header fields `assessRisk` reads. -/
structure EmailHeaders where
  fromAddr : String
  authResults : Option AuthResults
deriving DecidableEq, Repr

/-- The configuration fields `assessRisk`/`shouldQuarantine` read. -/
structure RiskConfig where
  riskThreshold : Nat
  quarantineEnabled : Bool
  blockedSenderDomains : List String
  allowedSenderDomains : List String
deriving DecidableEq, Repr

/-- Recommendation levels, in ascending severity. -/
inductive Recommendation where
  | allow
  | review
  | quarantine
  | block
deriving DecidableEq, Repr

/-- `RiskScore`. -/
structure RiskScore where
  score : Nat
  reasons : List String
  signals : List RiskSignal
  recommendation : Recommendation
deriving DecidableEq, Repr

/-- JS `\s` character class (also the set `String.prototype.trim` strips). -/
def isJsWhitespace (c : Char) : Bool :=
  c = ' ' || c = '\t' || c = '\n' || c = '\r'
  || c.toNat = 0x0B || c.toNat = 0x0C
  || c.toNat = 0xA0 || c.toNat = 0x1680
  || (0x2000 ≤ c.toNat && c.toNat ≤ 0x200A)
  || c.toNat = 0x2028 || c.toNat = 0x2029 || c.toNat = 0x202F
  || c.toNat = 0x205F || c.toNat = 0x3000 || c.toNat = 0xFEFF

/-- `extractSenderDomain`: first match of `/@([^\s>]+)/`, lower-cased, or
the empty string.  A successful match starts at some `@`; the capture is the
maximal following run of non-whitespace, non-`>` characters. -/
def senderDomainChars : List Char → Option (List Char)
  | [] => none
  | c :: rest =>
    if c = '@' then
      let run := rest.takeWhile (fun d => !(isJsWhitespace d) && d ≠ '>')
      if run.isEmpty then senderDomainChars rest else some run
    else senderDomainChars rest

/-- `extractSenderDomain` on a string. -/
def extractSenderDomain (from_ : String) : String :=
  match senderDomainChars from_.data with
  | some run => lowerStr (String.mk run)
  | none => ""

/-- Signals with a given description, used for the per-description cap. -/
def countDesc (signals : List RiskSignal) (desc : String) : Nat :=
  (signals.filter (fun s => s.description == desc)).length

/-- The signal built for one pattern match (`evidence` is the first 100
UTF-16 units of the match; we take 100 code points, which agrees on BMP
text). -/
def signalOfMatch (p : PatternDef) (m : MatchEv) : RiskSignal :=
  { type := p.type
    severity := p.severity
    description := p.description
    evidence := some (String.mk (m.text.data.take 100))
    location := some (m.index, m.index + utf16Len m.text.data) }

/-- The inner `matchAll` loop of `assessRisk` for one rule: push a signal
and add the weight per match, breaking once ten signals carry this rule's
description (the count includes signals pushed by earlier rules sharing the
description). -/
def scanMatches (p : PatternDef) : List MatchEv → List RiskSignal → Nat →
    List RiskSignal × Nat
  | [], signals, w => (signals, w)
  | m :: rest, signals, w =>
    let signals1 := signals ++ [signalOfMatch p m]
    let w1 := w + p.weight
    if countDesc signals1 p.description ≥ 10 then (signals1, w1)
    else scanMatches p rest signals1 w1

/-- The link-assessment loop: +15 per suspicious link, +10 more for each
suspicion reason mentioning an IP address or a lookalike domain. -/
def scanLinks : List ExtractedLink → List RiskSignal → Nat →
    List RiskSignal × Nat
  | [], signals, w => (signals, w)
  | link :: rest, signals, w =>
    if link.suspicious then
      let signals1 := signals ++
        [{ type := "suspicious_link"
           severity := "medium"
           description := "Suspicious link detected: " ++ link.domain
           evidence := some (String.mk (link.url.data.take 100))
           location := none }]
      let extra := ((link.suspicionReasons.getD []).filter (fun r =>
        containsSubstr r "IP address" || containsSubstr r "lookalike")).length
      scanLinks rest signals1 (w + 15 + 10 * extra)
    else scanLinks rest signals w

/-- `assessRisk`, parameterized by the compiled rule table and the regex
oracle `matcher` (the matches each rule yields on the truncated body
text).  Rules whose evaluation throws are skipped by the source; a skipped
rule is the oracle returning `[]`. -/
def assessRisk (patterns : List PatternDef) (matcher : PatternDef → List MatchEv)
    (links : List ExtractedLink) (headers : EmailHeaders)
    (config : RiskConfig) : RiskScore :=
  let (signals1, w1) := patterns.foldl
    (fun acc p => scanMatches p (matcher p) acc.1 acc.2) ([], 0)
  let (signals2, w2) := scanLinks links signals1 w1
  let (signals3, w3) : List RiskSignal × Nat :=
    match headers.authResults with
    | none => (signals2, w2)
    | some auth =>
      let (sA, wA) : List RiskSignal × Nat :=
        if auth.spf == some "fail" then
          (signals2 ++ [{ type := "suspicious_link"
                          severity := "high"
                          description := "SPF authentication failed"
                          evidence := none
                          location := none }], w2 + 20)
        else (signals2, w2)
      let (sB, wB) : List RiskSignal × Nat :=
        if auth.dkim == some "fail" then
          (sA ++ [{ type := "suspicious_link"
                    severity := "high"
                    description := "DKIM authentication failed"
                    evidence := none
                    location := none }], wA + 20)
        else (sA, wA)
      if auth.dmarc == some "fail" then
        (sB ++ [{ type := "suspicious_link"
                  severity := "high"
                  description := "DMARC authentication failed"
                  evidence := none
                  location := none }], wB + 25)
      else (sB, wB)
  let senderDomain := extractSenderDomain headers.fromAddr
  let (signals4, w4) : List RiskSignal × Nat :=
    if config.blockedSenderDomains.contains senderDomain then
      (signals3 ++ [{ type := "suspicious_link"
                      severity := "critical"
                      description := "Sender domain is blocklisted"
                      evidence := none
                      location := none }], w3 + 50)
    else (signals3, w3)
  let w5 := if config.allowedSenderDomains.contains senderDomain
    then w4 / 2 else w4
  let score := min 100 w5
  let recommendation :=
    if score ≥ 80 then Recommendation.block
    else if score ≥ config.riskThreshold then Recommendation.quarantine
    else if score ≥ 30 then Recommendation.review
    else Recommendation.allow
  { score := score
    reasons := setOfList (signals4.map (fun s => s.description))
    signals := signals4
    recommendation := recommendation }

/-- `MLClassifierResult` (schema-validated: score in [0,100], confidence in
[0,1]). -/
structure MLClassifierResult where
  score : ℚ
  confidence : ℚ
  labels : List String
deriving DecidableEq, Repr

/-- `combineScores`: weighted blend rounded and capped at 100; the heuristic
score passes through unchanged when there is no ML result. -/
def combineScores (heuristicScore : ℚ) (mlResult : Option MLClassifierResult)
    (mlWeight : ℚ) : ℚ :=
  match mlResult with
  | none => heuristicScore
  | some r =>
    ((min 100 (jsRound (heuristicScore * (1 - mlWeight) + r.score * mlWeight)) : ℤ) : ℚ)

/-- `shouldQuarantine`. -/
def shouldQuarantine (riskScore : RiskScore) (config : RiskConfig) : Bool :=
  if !config.quarantineEnabled then false
  else riskScore.recommendation == Recommendation.quarantine
    || riskScore.recommendation == Recommendation.block

/-! ## Script/Language Analyzer (`src/sanitize/script_analyzer.ts`)

The analyzer splits text into words with `/[\p{L}\p{M}\p{N}]+/gu`; the
Unicode property data behind that class belongs to the regex engine, so the
word-character predicate is a parameter.  Word positions and the two length
checks use UTF-16 units, modelled exactly by `utf16Len`.  Confidences are
exact decimals (multiples of 0.05 built from 0.5/0.75/0.85/0.9 and ±0.1/0.2
cap-adjustments), modelled in `ℚ`; the aggregate score is integral
throughout (`Math.round`/`Math.min` of integers), modelled in `ℤ`. -/

/-- `SCRIPT_RANGES`. -/
def SCRIPT_RANGES : List (String × List (Nat × Nat)) :=
  [("Latin", [(0x0041, 0x005A), (0x0061, 0x007A), (0x00C0, 0x00FF),
              (0x0100, 0x017F), (0x0180, 0x024F), (0x1E00, 0x1EFF)]),
   ("Cyrillic", [(0x0400, 0x04FF), (0x0500, 0x052F), (0x2DE0, 0x2DFF),
                 (0xA640, 0xA69F)]),
   ("Greek", [(0x0370, 0x03FF), (0x1F00, 0x1FFF)]),
   ("Armenian", [(0x0530, 0x058F)]),
   ("Cherokee", [(0x13A0, 0x13FF), (0xAB70, 0xABBF)]),
   ("Hebrew", [(0x0590, 0x05FF)]),
   ("Arabic", [(0x0600, 0x06FF), (0x0750, 0x077F), (0x08A0, 0x08FF),
               (0xFB50, 0xFDFF), (0xFE70, 0xFEFF)]),
   ("CJK", [(0x4E00, 0x9FFF), (0x3400, 0x4DBF), (0x3040, 0x309F),
            (0x30A0, 0x30FF), (0xAC00, 0xD7AF), (0x1100, 0x11FF)]),
   ("Mathematical", [(0x1D400, 0x1D7FF)])]

/-- `COMMON_RANGES`. -/
def COMMON_RANGES : List (Nat × Nat) :=
  [(0x0020, 0x0040), (0x005B, 0x0060), (0x007B, 0x007F), (0x2000, 0x206F)]

/-- Membership of a code point in a range list. -/
def inRanges (cp : Nat) (rs : List (Nat × Nat)) : Bool :=
  rs.any (fun r => r.1 ≤ cp && cp ≤ r.2)

/-- `getCharacterScript`: `None` for common characters, a script bucket
name, or `Other`. -/
def getCharacterScript (cp : Nat) : Option String :=
  if inRanges cp COMMON_RANGES then none
  else
    match SCRIPT_RANGES.find? (fun s => inRanges cp s.2) with
    | some s => some s.1
    | none => some "Other"

/-- `MixedScriptWord`.  Every confidence value the source manipulates is
an exact multiple of 0.05 (0.5 / 0.75 / 0.85 / 0.9 base values, +0.1 and
+0.2 adjustments, capped at 1), so `confidence` is stored scaled by 100 as
a `Nat` (the source's float `c` is `confidence / 100` here, exactly). -/
structure MixedScriptWord where
  word : List Char
  scripts : List String
  position : Nat
  confidence : Nat
deriving DecidableEq, Repr

/-- Fuel-indexed stable two-list merge (structural recursion on the fuel;
one element is consumed per step, so `|a| + |b|` fuel always suffices). -/
def mergeByPosFuel : Nat → List (Nat × Nat) → List (Nat × Nat) → List (Nat × Nat)
  | 0, xs, ys => xs ++ ys
  | _ + 1, [], ys => ys
  | _ + 1, x :: xs, [] => x :: xs
  | fuel + 1, x :: xs, y :: ys =>
    if x.1 ≤ y.1 then x :: mergeByPosFuel fuel xs (y :: ys)
    else y :: mergeByPosFuel fuel (x :: xs) ys

/-- Stable merge of two position-sorted tagged lists (the JS
`sort((a,b) => a.p - b.p)` over the concatenation of per-script position
lists, which are each increasing). -/
def mergeByPos (a b : List (Nat × Nat)) : List (Nat × Nat) :=
  mergeByPosFuel (a.length + b.length) a b

/-- Adjacent tag changes in the merged position sequence. -/
def countAlternations : List (Nat × Nat) → Nat
  | [] => 0
  | [_] => 0
  | a :: b :: rest => (if a.2 ≠ b.2 then 1 else 0) + countAlternations (b :: rest)

/-- Append a position to a script's entry of the position map. -/
def appendPos (m : List (String × List Nat)) (s : String) (i : Nat) :
    List (String × List Nat) :=
  mapSet m s ((mapGet m s).getD [] ++ [i])

/-- The character scan of `analyzeWord`: collect the set of non-common,
non-`Other` scripts and the UTF-16 positions per script. -/
def collectScripts : List Char → Nat → List String → List (String × List Nat) →
    List String × List (String × List Nat)
  | [], _, scripts, posMap => (scripts, posMap)
  | c :: rest, i, scripts, posMap =>
    let cp := c.toNat
    let next :=
      match getCharacterScript cp with
      | some s => if s ≠ "Other" then (setAdd scripts s, appendPos posMap s i)
                  else (scripts, posMap)
      | none => (scripts, posMap)
    collectScripts rest (i + (if cp > 0xFFFF then 2 else 1)) next.1 next.2

/-- `analyzeWord`: a finding only for ≥2 distinct scripts; base confidence
0.5, overridden in order by Latin+Cyrillic (0.9), Latin+Greek (0.85),
Latin+Mathematical (0.75); +0.1 capped at 1 when exactly two scripts
alternate ≥3 times within a word of UTF-16 length ≤10. -/
def analyzeWord (word : List Char) (position : Nat) : Option MixedScriptWord :=
  let sp := collectScripts word 0 [] []
  let scripts := sp.1
  let posMap := sp.2
  if scripts.length < 2 then none
  else
    let c1 : Nat := 50
    let c2 := if scripts.contains "Latin" && scripts.contains "Cyrillic"
      then 90 else c1
    let c3 := if scripts.contains "Latin" && scripts.contains "Greek"
      then 85 else c2
    let c4 := if scripts.contains "Latin" && scripts.contains "Mathematical"
      then 75 else c3
    let conf :=
      match scripts with
      | [s1, s2] =>
        let pos1 := (mapGet posMap s1).getD []
        let pos2 := (mapGet posMap s2).getD []
        let merged := mergeByPos (pos1.map (fun p => (p, 0)))
          (pos2.map (fun p => (p, 1)))
        if countAlternations merged ≥ 3 ∧ utf16Len word ≤ 10
        then min 100 (c4 + 10) else c4
      | _ => c4
    some { word := word, scripts := scripts, position := position,
           confidence := conf }

/-- Word splitter: maximal runs of word characters with their UTF-16 start
positions (the behaviour of `/[\p{L}\p{M}\p{N}]+/gu` for the given
word-character predicate). -/
def splitWordsAux (iw : Char → Bool) :
    List Char → Nat → List Char → Nat → List (List Char × Nat)
  | [], _, curRev, curStart =>
    if curRev.isEmpty then [] else [(curRev.reverse, curStart)]
  | c :: rest, i, curRev, curStart =>
    let w := if c.toNat > 0xFFFF then 2 else 1
    if iw c then
      if curRev.isEmpty then splitWordsAux iw rest (i + w) [c] i
      else splitWordsAux iw rest (i + w) (c :: curRev) curStart
    else if curRev.isEmpty then splitWordsAux iw rest (i + w) [] 0
    else (curRev.reverse, curStart) :: splitWordsAux iw rest (i + w) [] 0

/-- Top-level word splitting. -/
def splitWords (iw : Char → Bool) (text : List Char) : List (List Char × Nat) :=
  splitWordsAux iw text 0 [] 0

/-- Case folding for `/i` matching of the target-word patterns: ASCII
upper→lower plus the Cyrillic letter ranges the analyzer classifies
(U+0400–U+040F and U+0410–U+042F map onto their lowercase partners). -/
def jsFoldChar (c : Char) : Char :=
  if 'A' ≤ c ∧ c ≤ 'Z' then Char.ofNat (c.toNat + 32)
  else if 0x410 ≤ c.toNat ∧ c.toNat ≤ 0x42F then Char.ofNat (c.toNat + 0x20)
  else if 0x400 ≤ c.toNat ∧ c.toNat ≤ 0x40F then Char.ofNat (c.toNat + 0x50)
  else c

/-- The ten `attackPatterns` of `analyzeScriptMixing`, as per-position
character alternatives (each regex is a fixed-length alternation of
literal characters, e.g. `/p[aа]yp[aа]l/i`). -/
def attackTemplates : List (List (List Char)) :=
  [[['p'], ['a', 'а'], ['y'], ['p'], ['a', 'а'], ['l']],
   [['g'], ['o', 'о'], ['o', 'о'], ['g'], ['l'], ['e', 'е']],
   [['m'], ['i', 'і'], ['c'], ['r'], ['o', 'о'], ['s'], ['o', 'о'], ['f'], ['t']],
   [['a', 'а'], ['m'], ['a', 'а'], ['z'], ['o', 'о'], ['n']],
   [['a', 'а'], ['p'], ['p'], ['l'], ['e', 'е']],
   [['p'], ['a', 'а'], ['s'], ['s'], ['w'], ['o', 'о'], ['r'], ['d']],
   [['l'], ['o', 'о'], ['g'], ['i', 'і'], ['n']],
   [['a', 'а'], ['c'], ['c'], ['o', 'о'], ['u'], ['n'], ['t']],
   [['v'], ['e', 'е'], ['r'], ['i', 'і'], ['f'], ['y']],
   [['s'], ['e', 'е'], ['c'], ['u'], ['r'], ['e', 'е']]]

/-- Template match anchored at the front of `chars`. -/
def matchesAt : List (List Char) → List Char → Bool
  | [], _ => true
  | _ :: _, [] => false
  | cls :: trest, c :: crest =>
    cls.contains (jsFoldChar c) && matchesAt trest crest

/-- `pattern.test(word)`: the template matches at some offset. -/
def templateTest (tmpl : List (List Char)) : List Char → Bool
  | [] => matchesAt tmpl []
  | c :: rest => matchesAt tmpl (c :: rest) || templateTest tmpl rest

/-- Number of attack templates matching a word. -/
def countTargetMatches (w : List Char) : Nat :=
  (attackTemplates.filter (fun t => templateTest t w)).length

/-- `ScriptAnalysis` (the score is a non-negative integer throughout the
source: sums, `Math.round` and `Math.min` of integers). -/
structure ScriptAnalysis where
  scripts : List String
  mixedScriptWords : List MixedScriptWord
  suspicionScore : Nat
  isSuspicious : Bool
deriving DecidableEq, Repr

/-- Scripts contributed by one word to the text-level script set. -/
def wordScriptsFold (allScripts : List String) (word : List Char) : List String :=
  word.foldl (fun acc c =>
    match getCharacterScript c.toNat with
    | some s => if s ≠ "Other" then setAdd acc s else acc
    | none => acc) allScripts

/-- The target-word boost for one finding: each matching template adds 20
to the score (capped at 100 immediately) and 0.2 to the finding's
confidence (capped at 1; scaled: +20 capped at 100). -/
def boostWord (f : MixedScriptWord) (score : Nat) : MixedScriptWord × Nat :=
  attackTemplates.foldl
    (fun acc t =>
      if templateTest t acc.1.word then
        ({ acc.1 with confidence := min 100 (acc.1.confidence + 20) },
         min 100 (acc.2 + 20))
      else acc)
    (f, score)

/-- The boost loop over all findings (it runs after the mean confidence is
taken, and mutates the findings' confidences in place). -/
def boostAll : List MixedScriptWord → Nat → List MixedScriptWord × Nat
  | [], s => ([], s)
  | f :: rest, s =>
    let fs := boostWord f s
    let rs := boostAll rest fs.2
    (fs.1 :: rs.1, rs.2)

/-- Sum of the findings' confidences (scaled by 100). -/
def confSum (fs : List MixedScriptWord) : Nat :=
  fs.foldl (fun acc f => acc + f.confidence) 0

/-- Total number of (finding, attack-pattern) matches seen by the boost
loop: each one adds 20 to the score (capped at 100 immediately) and 0.2 to
that finding's confidence (capped at 1). -/
def totalBoostMatches (fs : List MixedScriptWord) : Nat :=
  (fs.map (fun f => countTargetMatches f.word)).sum

/-- `Math.round(40 × mean confidence)` computed exactly on the scaled
representation: with `sumConf` = 100·(sum of confidences) the mean is
`sumConf/(100·count)`, so `round(40·mean) = ⌊2·sumConf/(5·count) + 1/2⌋ =
⌊(4·sumConf + 5·count)/(10·count)⌋`, a floor division of naturals. -/
def scaledRound40 (sumConf count : Nat) : Nat :=
  (4 * sumConf + 5 * count) / (10 * count)

/-- The score-assembly tail of `analyzeScriptMixing` (everything after the
word scan): base score `min(50, 15·count)` plus `round(40·mean
confidence)`, then the target-word boost loop, then the final cap at 100;
`isSuspicious` iff the final score is ≥25 or any finding exists. -/
def assembleAnalysis (allScripts : List String)
    (findings : List MixedScriptWord) : ScriptAnalysis :=
  if findings.isEmpty then
    { scripts := allScripts
      mixedScriptWords := []
      suspicionScore := 0
      isSuspicious := false }
  else
    let count := findings.length
    let base : Nat := min 50 (15 * count)
    let score1 : Nat := base + scaledRound40 (confSum findings) count
    let boosted := boostAll findings score1
    let finalScore := min 100 boosted.2
    { scripts := allScripts
      mixedScriptWords := boosted.1
      suspicionScore := finalScore
      isSuspicious := finalScore ≥ 25 || !boosted.1.isEmpty }

/-- The word-scan phase of `analyzeScriptMixing`: the `mixedScriptWords`
array as it stands when the score assembly begins (per-word confidences
before the target-word boost loop mutates them). -/
def scanFindings (iw : Char → Bool) (text : List Char) : List MixedScriptWord :=
  ((splitWords iw text).filter (fun wp => 2 ≤ utf16Len wp.1)).foldl
    (fun acc wp =>
      match analyzeWord wp.1 wp.2 with
      | some f => acc ++ [f]
      | none => acc) []

/-- `analyzeScriptMixing`, parameterized by the word-character predicate of
the splitting regex.  Words of UTF-16 length <2 are skipped. -/
def analyzeScriptMixing (iw : Char → Bool) (text : List Char) : ScriptAnalysis :=
  let pieces := (splitWords iw text).filter (fun wp => 2 ≤ utf16Len wp.1)
  let allScripts := pieces.foldl (fun acc wp => wordScriptsFold acc wp.1) []
  assembleAnalysis allScripts (scanFindings iw text)

/-! ## Sanitizer (`src/sanitize/html_to_text.ts`)

We embed the `htmlContent === undefined` path of `sanitizeEmailContent`
(plain content in, canonical body text out).  Every theorem below exercises
only this path: the spec's idempotence equation re-sanitizes the produced
body text with no HTML, and the counterexample's first input is plain text
too.  Two collaborators that are not repository code are parameters:
`nfkc` stands for `String.prototype.normalize('NFKC')` and the confusables
table is the loaded `confusables.json` (its hard-coded in-source fallback is
`fallbackConfusables` below).  Link extraction reads the text without
changing it and `bodyText` is what the claims are about, so the link list is
not modelled; the base64 sniff inside `normalizeEncoding` never changes the
text either (it only toggles `encodingNormalized`) and is likewise outside
the model. -/

/-- `QuotedBlock`. -/
structure QuotedBlock where
  content : String
  depth : Nat
  attribution : Option String
deriving DecidableEq, Repr

/-- `BiDiAnalysis`. -/
structure BiDiAnalysis where
  primaryDirection : String
  overrideCount : Nat
  suspiciousOverrides : Bool
  suspiciousLocations : List Nat
deriving DecidableEq, Repr

/-- `RTL_SCRIPT_RANGES`. -/
def RTL_SCRIPT_RANGES : List (Nat × Nat) :=
  [(0x0590, 0x05FF), (0x0600, 0x06FF), (0x0700, 0x074F), (0x0750, 0x077F),
   (0x08A0, 0x08FF), (0xFB50, 0xFDFF), (0xFE70, 0xFEFF)]

/-- The zero-width character class `[​-‍﻿⁠᠎]`. -/
def isZeroWidthChar (c : Char) : Bool :=
  (0x200B ≤ c.toNat && c.toNat ≤ 0x200D) || c.toNat = 0xFEFF
  || c.toNat = 0x2060 || c.toNat = 0x180E

/-- The hidden-unicode class `[  ]` (line/paragraph separators). -/
def isHiddenUnicodeChar (c : Char) : Bool :=
  c.toNat = 0x2028 || c.toNat = 0x2029

/-- The BiDi override class `[‪-‮⁦-⁩]`. -/
def isBidiOverrideChar (c : Char) : Bool :=
  (0x202A ≤ c.toNat && c.toNat ≤ 0x202E)
  || (0x2066 ≤ c.toNat && c.toNat ≤ 0x2069)

/-- Latin/basic LTR counting class of `analyzeBiDi`. -/
def isLtrCounted (c : Char) : Bool :=
  (0x41 ≤ c.toNat && c.toNat ≤ 0x5A) || (0x61 ≤ c.toNat && c.toNat ≤ 0x7A)
  || (0xC0 ≤ c.toNat && c.toNat ≤ 0x24F)

/-- The BiDi override scan: UTF-16 positions of override characters and of
the suspicious ones (direction contradicting the primary direction). -/
def bidiScan (primary : String) : List Char → Nat → List Nat × List Nat
  | [], _ => ([], [])
  | c :: rest, i =>
    let w := if c.toNat > 0xFFFF then 2 else 1
    let tail := bidiScan primary rest (i + w)
    if isBidiOverrideChar c then
      let cp := c.toNat
      let isLtrOv := cp = 0x202A || cp = 0x202D || cp = 0x2066
      let isRtlOv := cp = 0x202B || cp = 0x202E || cp = 0x2067
      let susp := (primary == "rtl" && isLtrOv) || (primary == "ltr" && isRtlOv)
      (i :: tail.1, if susp then i :: tail.2 else tail.2)
    else tail

/-- `analyzeBiDi`. -/
def analyzeBiDi (text : List Char) : BiDiAnalysis :=
  let rtlCount := (text.filter (fun c => inRanges c.toNat RTL_SCRIPT_RANGES)).length
  let ltrCount := (text.filter isLtrCounted).length
  let primary :=
    if rtlCount + ltrCount = 0 then "ltr"
    else if rtlCount > ltrCount * 3 then "rtl"
    else if ltrCount > rtlCount * 3 then "ltr"
    else "mixed"
  let scan := bidiScan primary text 0
  { primaryDirection := primary
    overrideCount := scan.1.length
    suspiciousOverrides := !scan.2.isEmpty || scan.1.length > 5
    suspiciousLocations := scan.2 }

/-- `sanitizeBiDi`: strip all BiDi overrides only when the analysis flagged
them suspicious. -/
def sanitizeBiDi (text : List Char) (analysis : BiDiAnalysis) :
    List Char × Bool :=
  if analysis.suspiciousOverrides then
    let cleaned := text.filter (fun c => !isBidiOverrideChar c)
    (cleaned, cleaned ≠ text)
  else (text, false)

/-- Fuel-indexed text replacement (each step consumes at least one
character, so `|l|` fuel always suffices). -/
def replaceAllFuel (k v : List Char) : Nat → List Char → List Char
  | 0, l => l
  | _ + 1, [] => []
  | fuel + 1, c :: rest =>
    if k ≠ [] ∧ k.isPrefixOf (c :: rest) then
      v ++ replaceAllFuel k v fuel ((c :: rest).drop k.length)
    else
      c :: replaceAllFuel k v fuel rest

/-- JS `String.prototype.split(k).join(v)` over code points. -/
def replaceAllL (k v l : List Char) : List Char :=
  replaceAllFuel k v l.length l

/-- The hard-coded fallback confusables table of `loadConfusables`
(Cyrillic look-alikes to ASCII). -/
def fallbackConfusables : List (String × String) :=
  [("а", "a"), ("е", "e"), ("о", "o"), ("р", "p"), ("с", "c"),
   ("у", "y"), ("х", "x"), ("ѕ", "s"), ("і", "i"), ("ј", "j")]

/-- `normalizeEncoding`: NFKC (the `nfkc` parameter), then fold each
confusable that occurs; returns the text and the `modified` flag
contributed by these two steps. -/
def normalizeEncoding (nfkc : List Char → List Char)
    (confusables : List (String × String)) (text : List Char) :
    List Char × Bool :=
  let afterNfkc := nfkc text
  let modified0 := afterNfkc ≠ text
  confusables.foldl
    (fun acc kv =>
      if infixCheck kv.1.data acc.1 then
        (replaceAllL kv.1.data kv.2.data acc.1, true)
      else acc)
    (afterNfkc, modified0)

/-- Collapse every maximal run of characters satisfying `p` whose length
reaches `th` into `repl` (the two whitespace-collapsing regex replaces). -/
def collapseRunsAux (p : Char → Bool) (th : Nat) (repl : List Char) :
    List Char → List Char → List Char
  | bufRev, [] => if th ≤ bufRev.length then repl else bufRev.reverse
  | bufRev, c :: rest =>
    if p c then collapseRunsAux p th repl (c :: bufRev) rest
    else
      (if bufRev.isEmpty then [] else
        if th ≤ bufRev.length then repl else bufRev.reverse)
      ++ c :: collapseRunsAux p th repl [] rest

/-- Entry point for run collapsing. -/
def collapseRuns (p : Char → Bool) (th : Nat) (repl : List Char)
    (l : List Char) : List Char :=
  collapseRunsAux p th repl [] l

/-- Horizontal whitespace of `EXCESSIVE_WHITESPACE` (`[\t ]`). -/
def isHorizWs (c : Char) : Bool :=
  c = '\t' || c = ' '

/-- `String.prototype.trim`. -/
def jsTrim (l : List Char) : List Char :=
  ((l.dropWhile isJsWhitespace).reverse.dropWhile isJsWhitespace).reverse

/-- Helper: does `suffix` end the list? -/
def endsWith (sfx l : List Char) : Bool :=
  sfx.reverse.isPrefixOf l.reverse

/-- `isQuoteAttribution`: the four attribution patterns, each tested
against the trimmed line (`/i` via ASCII folding). -/
def isQuoteAttribution (line : List Char) : Bool :=
  let t := jsTrim line
  let low := t.map asciiLower
  -- /^On .+ wrote:$/i : "on " prefix, " wrote:" suffix, ≥1 middle character
  let p1 := "on ".data.isPrefixOf low && endsWith " wrote:".data low
    && low.length ≥ 11
  -- /^-{3,}\s*Original Message\s*-{3,}$/i
  let p2 :=
    let afterDash := low.dropWhile (fun c => c = '-')
    let dashes1 := low.length - afterDash.length
    let afterWs := afterDash.dropWhile isJsWhitespace
    if dashes1 ≥ 3 && "original message".data.isPrefixOf afterWs then
      let afterMsg := afterWs.drop 16
      let afterWs2 := afterMsg.dropWhile isJsWhitespace
      afterWs2.length ≥ 3 && afterWs2.all (fun c => c = '-')
    else false
  -- /^_{3,}\s*$/
  let p3 :=
    let afterU := t.dropWhile (fun c => c = '_')
    (t.length - afterU.length) ≥ 3 && afterU.all isJsWhitespace
  -- /^From:\s+.+\[mailto:/i : "from:" prefix, one whitespace, one more
  -- character, then "[mailto:" anywhere later
  let p4 :=
    if "from:".data.isPrefixOf low then
      let rest := low.drop 5
      match rest with
      | [] => false
      | c :: _ => isJsWhitespace c && infixCheck "[mailto:".data (rest.drop 2)
    else false
  p1 || p2 || p3 || p4

/-- State of the quote-extraction line walk. -/
structure QuoteState where
  mainRev : List (List Char)
  blocksRev : List QuotedBlock
  curRev : List (List Char)
  curDepth : Nat
  attribution : Option String
deriving Repr

/-- Join lines with a separator character. -/
def joinLines (sep : Char) (ls : List (List Char)) : List Char :=
  match ls with
  | [] => []
  | [l] => l
  | l :: rest => l ++ sep :: joinLines sep rest

/-- Flush the current quote buffer into a `QuotedBlock`. -/
def flushQuote (st : QuoteState) : List QuotedBlock :=
  { content := String.mk (joinLines '\n' st.curRev.reverse)
    depth := st.curDepth
    attribution := st.attribution } :: st.blocksRev

/-- One step of the `extractQuotedBlocks` line walk. -/
def quoteStep (st : QuoteState) (line : List Char) : QuoteState :=
  let gtRun := line.takeWhile (fun c => c = '>')
  if gtRun.length ≥ 1 then
    let depth := gtRun.length
    let afterGt := line.drop depth
    let ws := afterGt.takeWhile isJsWhitespace
    let content := afterGt.drop ws.length
    let st1 :=
      if depth ≠ st.curDepth ∧ ¬st.curRev.isEmpty then
        { st with blocksRev := flushQuote st, curRev := [], attribution := none }
      else st
    { st1 with curDepth := depth, curRev := content :: st1.curRev }
  else if isQuoteAttribution line then
    let st1 :=
      if ¬st.curRev.isEmpty then
        { st with blocksRev := flushQuote st, curRev := [] }
      else st
    { st1 with attribution := some (String.mk line), curDepth := 1 }
  else
    let st1 :=
      if ¬st.curRev.isEmpty then
        { st with blocksRev := flushQuote st, curRev := [], curDepth := 0,
                  attribution := none }
      else st
    { st1 with mainRev := line :: st1.mainRev }

/-- `text.split('\n')`: split on newline, keeping empty segments (a
trailing newline yields a final empty line, like the JS split). -/
def splitLinesAux : List Char → List Char → List (List Char)
  | curRev, [] => [curRev.reverse]
  | curRev, c :: rest =>
    if c = '\n' then curRev.reverse :: splitLinesAux [] rest
    else splitLinesAux (c :: curRev) rest

/-- Entry point for line splitting. -/
def splitLines (text : List Char) : List (List Char) :=
  splitLinesAux [] text

/-- `extractQuotedBlocks`. -/
def extractQuotedBlocks (text : List Char) :
    List Char × List QuotedBlock :=
  let lines := splitLines text
  let final := lines.foldl quoteStep
    { mainRev := [], blocksRev := [], curRev := [], curDepth := 0,
      attribution := none }
  let blocks :=
    if ¬final.curRev.isEmpty then flushQuote final else final.blocksRev
  (joinLines '\n' final.mainRev.reverse, blocks.reverse)

/-- Take a prefix of at most `n` UTF-16 units (`substring(0, n)`; a JS cut
through a surrogate pair would leave a lone surrogate, which has no
code-point representation — the pair is excluded instead). -/
def takeUtf16 (n : Nat) : List Char → List Char
  | [] => []
  | c :: rest =>
    let w := if c.toNat > 0xFFFF then 2 else 1
    if w ≤ n then c :: takeUtf16 (n - w) rest else []

/-- `lastIndexOf(' ')` in UTF-16 units. -/
def lastSpaceIndex (l : List Char) : Option Nat :=
  (l.foldl (fun (acc : Option Nat × Nat) c =>
    (if c = ' ' then some acc.2 else acc.1,
     acc.2 + (if c.toNat > 0xFFFF then 2 else 1))) (none, 0)).1

/-- The truncation step: cut to `maxLength` UTF-16 units, prefer the last
space inside the final 20% of the budget, then append the fixed truncation
marker.  `lastSpace > maxLength * 0.8` is evaluated exactly as
`5·lastSpace > 4·maxLength`; the double computation of `maxLength * 0.8`
agrees with the exact value on these integer comparisons. -/
def truncateStep (text : List Char) (maxLength : Nat) : List Char :=
  if utf16Len text > maxLength then
    let cut := takeUtf16 maxLength text
    let cut2 :=
      match lastSpaceIndex cut with
      | some i => if 5 * i > 4 * maxLength then takeUtf16 i cut else cut
      | none => cut
    cut2 ++ "\n[Content truncated for safety]".data
  else text

/-- `SanitizationResult` (body text, quote blocks and the two flags;
links are extracted from the text without modifying it and are settled by
no claim below). -/
structure SanitizationResult where
  bodyText : String
  quotedBlocks : List QuotedBlock
  hiddenContentRemoved : Bool
  encodingNormalized : Bool
  originalLength : Nat
  sanitizedLength : Nat
  scriptAnalysis : ScriptAnalysis
  bidiAnalysis : BiDiAnalysis
deriving Repr

/-- `sanitizeEmailContent(undefined, plain, maxLength)`: the plain-content
path of the sanitizer, parameterized by the word-character predicate of the
script analyzer (`iw`), the Unicode normalizer (`nfkc`) and the confusables
table. -/
def sanitizeContentPlain (iw : Char → Bool) (nfkc : List Char → List Char)
    (confusables : List (String × String)) (plainContent : Option String)
    (maxLength : Nat) : SanitizationResult :=
  let text0 := (plainContent.getD "").data
  let scriptAnalysis := analyzeScriptMixing iw text0
  let bidiAnalysis := analyzeBiDi text0
  let norm := normalizeEncoding nfkc confusables text0
  let text1 := norm.1
  let text2 := text1.filter (fun c => !isZeroWidthChar c)
  let hidden1 := text2 ≠ text1
  let text3 := text2.filter (fun c => !isHiddenUnicodeChar c)
  let hidden2 := text3 ≠ text2
  let bidi := sanitizeBiDi text3 bidiAnalysis
  let text4 := bidi.1
  let text5 := collapseRuns isHorizWs 3 [' ', ' '] text4
  let text6 := collapseRuns (fun c => c = '\n') 4 ['\n', '\n', '\n'] text5
  let text7 := jsTrim text6
  let qb := extractQuotedBlocks text7
  let text8 := qb.1
  let text9 := truncateStep text8 maxLength
  { bodyText := String.mk text9
    quotedBlocks := qb.2
    hiddenContentRemoved := hidden1 || hidden2 || bidi.2
    encodingNormalized := norm.2
    originalLength := utf16Len (plainContent.getD "").data
    sanitizedLength := utf16Len text9
    scriptAnalysis := scriptAnalysis
    bidiAnalysis := bidiAnalysis }

/-! ## Spec-side definitions

Definitions that follow the specification's wording (not the source), used
only to compare a claimed behaviour with the implemented one. -/

/-- Spec wording of tool-name normalization (`C7`): "lowercased,
non-alphanumeric/underscore *stripped*" — characters outside `[a-z0-9_]`
are removed. -/
def specStripNormalize (tool : String) : String :=
  String.mk ((lowerStr tool).data.filter (fun c =>
    ('a' ≤ c ∧ c ≤ 'z') ∨ ('0' ≤ c ∧ c ≤ '9') ∨ c = '_'))

/-- Spec wording of the script-mixing suspicion score (`C6`):
`min(100, 15×findingCount + 40×meanConfidence)` before any target-word
boost. -/
def specScriptScore (findingCount : Nat) (meanConfidence : ℚ) : ℤ :=
  min 100 (15 * (findingCount : ℤ) + jsRound (40 * meanConfidence))

/-! ## Concrete instances for witnesses and counterexamples -/

/-- A three-step demo approval workflow. -/
def wfDemo3 : LWorkflow :=
  createApprovalWorkflow "wf-demo"
    [⟨"1", "send_email", "Send the reply", true⟩,
     ⟨"2", "apply_label", "Apply the label", true⟩,
     ⟨"3", "archive_email", "Archive the thread", true⟩] 0

/-- A two-step demo approval workflow. -/
def wfDemo2 : LWorkflow :=
  createApprovalWorkflow "wf-demo2"
    [⟨"1", "send_email", "Send the reply", true⟩,
     ⟨"2", "archive_email", "Archive the thread", true⟩] 0

/-- A workflow that has already completed. -/
def wfCompleted : LWorkflow :=
  { id := "wf-done"
    steps := [⟨"step-1", "Approve: send_email", StepType.approval,
               StepStatus.completed, none, none⟩]
    status := WfStatus.completed
    createdAt := 0
    updatedAt := 3 }

/-- A demo firewall configuration. -/
def cfgDemo : FirewallConfig :=
  { deniedTools := ["exec", "shell", "filesystem_write"]
    approvalRequiredActions := ["send_email"]
    lobsterEnabled := true }

/-- A firewall holding one freshly initialized Gmail-origin session. -/
def fwDemo : ToolFirewall :=
  initializeSession ⟨cfgDemo, [], []⟩ "sess-1"
    (some ⟨SourceKind.gmail, false⟩) (some 45) 100

/-- An approval request that was already resolved (approved). -/
def apDemo : ApprovalRequest :=
  ⟨"ap-1", "send_email", 100, 3700, ApprovalStatus.approved,
   some "first-operator", some 150⟩

/-- `fwDemo` with `apDemo` in the session's pending-approvals list. -/
def fwDemoA : ToolFirewall :=
  { fwDemo with
    sessionPolicies :=
      updateFirst (fun e => e.1 == "sess-1")
        (fun e => (e.1, { e.2 with pendingApprovals := [apDemo] }))
        fwDemo.sessionPolicies }

/-- A minimal session policy created at time `t` (only `createdAt` matters
to the eviction scan). -/
def mkPol (t : Nat) : SessionPolicy :=
  { sessionId := "p"
    source := SourceKind.direct
    riskScore := 0
    isGmailOrigin := false
    isAllowlistedSender := false
    createdAt := t
    deniedTools := []
    approvalRequiredActions := []
    pendingApprovals := []
    toolCallHistory := [] }

/-- A session store at the 10,000-session capacity whose strictly oldest
session has the *empty string* as its id (all other sessions are newer). -/
def cexStoreE : List (String × SessionPolicy) :=
  ("", mkPol 0) :: (List.range 9999).map (fun i => (Nat.repr (i + 1), mkPol (i + 1)))

/-- A firewall whose store is `cexStoreE`. -/
def fwCexE : ToolFirewall := ⟨cfgDemo, cexStoreE, []⟩

/-- A session store at capacity whose strictly oldest session has a
normal, non-empty id. -/
def cexStoreO : List (String × SessionPolicy) :=
  ("session-old", mkPol 0) :: (List.range 9999).map (fun i => (Nat.repr (i + 1), mkPol (i + 1)))

/-- A firewall whose store is `cexStoreO`. -/
def fwCexO : ToolFirewall := ⟨cfgDemo, cexStoreO, []⟩

/-- Word-character predicate used to instantiate the script analyzer's
splitting oracle in concrete statements: ASCII letters plus the Cyrillic
block.  On every character occurring in those statements (ASCII letters,
spaces, newlines, `>` and the Cyrillic letter б) this agrees with the real
`/[\p{L}\p{M}\p{N}]+/u` class. -/
def cyrWordChar (c : Char) : Bool :=
  c.isAlpha || (0x400 ≤ c.toNat && c.toNat ≤ 0x4FF)

/-! ## Helper lemmas -/

theorem updateFirst_length {α : Type} (p : α → Bool) (f : α → α) (l : List α) :
    (updateFirst p f l).length = l.length := by
  induction l with
  | nil => rfl
  | cons x xs ih =>
    unfold updateFirst
    by_cases h : p x = true
    · simp [h]
    · simp [h, ih]

theorem mem_updateFirst_of_not_pred {α : Type} (p : α → Bool) (f : α → α)
    (l : List α) (s : α) (hs : s ∈ l) (hP : p s = false) :
    s ∈ updateFirst p f l := by
  induction l with
  | nil => cases hs
  | cons x xs ih =>
    unfold updateFirst
    by_cases h : p x = true
    · simp only [h, if_pos]
      rcases hs with _ | hs
      · rw [h] at hP; cases hP
      · exact List.mem_cons_of_mem _ (by assumption)
    · simp only [h, if_neg, Bool.not_eq_true]
      rcases hs with _ | hs
      · exact List.mem_cons_self _ _
      · exact List.mem_cons_of_mem _ (ih (by assumption))

theorem firstMatch_mem_updateFirst {α : Type} (p : α → Bool) (f : α → α)
    (l : List α) (a : α) (ha : l.find? p = some a) :
    f a ∈ updateFirst p f l := by
  induction l with
  | nil => cases ha
  | cons x xs ih =>
    unfold updateFirst
    by_cases h : p x = true
    · rw [List.find?_cons_of_pos _ h] at ha
      cases ha
      simp [h]
    · rw [List.find?_cons_of_neg _ (by simp [h])] at ha
      simp only [h]
      exact List.mem_cons_of_mem _ (ih ha)

theorem mapGet_updateFirst_key {α : Type} (m : List (String × α)) (k : String)
    (g : α → α) (v : α) (h : mapGet m k = some v) :
    mapGet (updateFirst (fun e => e.1 == k) (fun e => (e.1, g e.2)) m) k
      = some (g v) := by
  induction m with
  | nil => cases h
  | cons e rest ih =>
    by_cases hk : (e.1 == k) = true
    · simp only [mapGet, hk, if_true, Option.some.injEq] at h
      simp [updateFirst, mapGet, hk, h]
    · simp only [mapGet, hk] at h
      simp only [updateFirst, hk, if_false, Bool.false_eq_true, ite_false]
      simp only [mapGet, hk, Bool.false_eq_true, ite_false]
      simp at h
      exact ih h

theorem find?_updateFirst {α : Type} (p : α → Bool) (f : α → α) (l : List α)
    (a : α) (h : l.find? p = some a) (hf : p (f a) = true) :
    (updateFirst p f l).find? p = some (f a) := by
  induction l with
  | nil => cases h
  | cons x xs ih =>
    by_cases hx : p x = true
    · rw [List.find?_cons_of_pos _ hx] at h
      cases h
      simp only [updateFirst, hx, if_true]
      rw [List.find?_cons_of_pos _ hf]
    · rw [List.find?_cons_of_neg _ (by simp [hx])] at h
      simp only [updateFirst, hx, Bool.false_eq_true, if_false]
      rw [List.find?_cons_of_neg _ (by simp [hx])]
      exact ih h

theorem mapGet_mapSet_ne {α : Type} (m : List (String × α)) (k k' : String)
    (v : α) (h : k' ≠ k) : mapGet (mapSet m k v) k' = mapGet m k' := by
  induction m with
  | nil => simp [mapSet, mapGet, Ne.symm h]
  | cons e rest ih =>
    by_cases hk : (e.1 == k) = true
    · have he : (e.1 == k') = false := by
        have := eq_of_beq hk; simp [this, Ne.symm h]
      simp [mapSet, mapGet, hk, he, Ne.symm h]
    · by_cases he : (e.1 == k') = true
      · simp [mapSet, mapGet, hk, he]
      · simp [mapSet, mapGet, hk, he, ih]

theorem mapGet_mapSet_self {α : Type} (m : List (String × α)) (k : String)
    (v : α) : mapGet (mapSet m k v) k = some v := by
  induction m with
  | nil => simp [mapSet, mapGet]
  | cons e rest ih =>
    by_cases hk : (e.1 == k) = true
    · simp [mapSet, mapGet, hk]
    · simp [mapSet, mapGet, hk, ih]

theorem mapGet_mapDelete_ne {α : Type} (m : List (String × α)) (k k' : String)
    (h : k' ≠ k) : mapGet (mapDelete m k) k' = mapGet m k' := by
  induction m with
  | nil => rfl
  | cons e rest ih =>
    by_cases hk : (e.1 == k) = true
    · have h2 : (e.1 == k') = false := by
        have := eq_of_beq hk; simp [this, Ne.symm h]
      simp [mapDelete, mapGet, hk, h2]
    · by_cases he : (e.1 == k') = true
      · simp [mapDelete, mapGet, hk, he]
      · simp [mapDelete, mapGet, hk, he, ih]

/-! ## Claim C1 -/

/-- C1: for every firewall state, time and tool-access check whose session
has a policy, a tool whose normalized name is in the hard-denied set is
never allowed by `checkToolAccess`: the decision has `allowed = false`,
`denialType = hard` and `requiresApproval = false`, regardless of the
session's risk score, provenance, or any prior approval state (none of
which are consulted on this path). -/
theorem C1_hard_denied_never_allowed (fw : ToolFirewall)
    (ctx : ToolPolicyContext) (now : Nat)
    (hpol : (mapGet fw.sessionPolicies ctx.sessionId).isSome = true)
    (hhard : HARD_DENIED_TOOLS.contains (normalizeToolName ctx.requestedTool) = true) :
    (checkToolAccess fw ctx now).1.allowed = false
    ∧ (checkToolAccess fw ctx now).1.denialType = some DenialType.hard
    ∧ (checkToolAccess fw ctx now).1.requiresApproval = false := by
  rcases h : mapGet fw.sessionPolicies ctx.sessionId with _ | policy
  · rw [h] at hpol; cases hpol
  · unfold checkToolAccess
    rw [h]
    have hmem := List.mem_of_elem_eq_true hhard
    simp [hmem]

/-- Witness for C1 at a concrete Gmail-origin session asking for `exec`. -/
theorem C1_hard_denied_never_allowed_witness :
    (checkToolAccess fwDemo ⟨"sess-1", "exec"⟩ 200).1.allowed = false
    ∧ (checkToolAccess fwDemo ⟨"sess-1", "exec"⟩ 200).1.denialType = some DenialType.hard
    ∧ (checkToolAccess fwDemo ⟨"sess-1", "exec"⟩ 200).1.requiresApproval = false :=
  C1_hard_denied_never_allowed fwDemo ⟨"sess-1", "exec"⟩ 200 (by decide) (by decide)

/-! ## Claim C3 -/

/-- C3: for every rule table, regex-oracle behaviour, link list, header set
and configuration, `assessRisk` returns a score that is at most 100 (it is
a `Nat`, hence an integer with `0 ≤ score` by construction); and
`combineScores` returns a value capped at 100 whenever its heuristic input
is (in particular on every `assessRisk` output), returning the heuristic
score unchanged when no ML result is given. -/
theorem C3_risk_score_bounded :
    (∀ patterns matcher links headers config,
      (assessRisk patterns matcher links headers config).score ≤ 100)
    ∧ (∀ h ml w, h ≤ (100 : ℚ) → combineScores h ml w ≤ 100)
    ∧ (∀ h w, combineScores h none w = h) := by
  refine ⟨?_, ?_, ?_⟩
  · intro patterns matcher links headers config
    unfold assessRisk
    exact Nat.min_le_left _ _
  · intro h ml w hh
    rcases ml with _ | r
    · exact hh
    · have hz : min 100 (jsRound (h * (1 - w) + r.score * w)) ≤ (100 : ℤ) :=
        min_le_left _ _
      show ((min 100 (jsRound (h * (1 - w) + r.score * w)) : ℤ) : ℚ) ≤ 100
      exact_mod_cast hz
  · intro h w
    rfl

/-- Witness for C3 at concrete inputs. -/
theorem C3_risk_score_bounded_witness :
    (assessRisk [] (fun _ => []) [] ⟨"alice@example.com", none⟩
      ⟨70, true, [], []⟩).score ≤ 100
    ∧ combineScores 40 (some ⟨50, 1/2, []⟩) (3/10) ≤ 100
    ∧ combineScores 55 none (3/10) = 55 :=
  ⟨C3_risk_score_bounded.1 [] (fun _ => []) [] ⟨"alice@example.com", none⟩
      ⟨70, true, [], []⟩,
   C3_risk_score_bounded.2.1 40 (some ⟨50, 1/2, []⟩) (3/10) (by norm_num),
   C3_risk_score_bounded.2.2 55 (3/10)⟩

/-! ## Claim C7 -/

set_option maxRecDepth 4000 in
/-- C7 counterexample: the code *replaces* characters outside `[a-z0-9_]`
with underscores rather than stripping them, so `exec` and `exec-` — two
names that differ only in a non-alphanumeric character and that the spec's
stripping normalization sends to the same name — normalize differently and
receive different policy decisions (hard denial vs. soft denial with
approval). -/
theorem C7_cex :
    specStripNormalize "exec-" = specStripNormalize "exec"
    ∧ normalizeToolName "exec-" ≠ normalizeToolName "exec"
    ∧ (checkToolAccess fwDemo ⟨"sess-1", "exec"⟩ 200).1.denialType
        = some DenialType.hard
    ∧ (checkToolAccess fwDemo ⟨"sess-1", "exec-"⟩ 200).1.denialType
        = some DenialType.soft
    ∧ (checkToolAccess fwDemo ⟨"sess-1", "exec-"⟩ 200).1.requiresApproval = true := by
  decide

/-- C7 (amended): `checkToolAccess` performs its set lookups on a
normalized name obtained by lowercasing and *replacing with an underscore*
every character that is not alphanumeric or underscore; consequently two
requested names with the same normal form (differing only in *which*
non-alphanumeric character stands at a position) resolve to the same policy
decision and the same firewall state. -/
theorem C7_amended_normalization_congruence (fw : ToolFirewall) (sid : String)
    (now : Nat) (t1 t2 : String)
    (h : normalizeToolName t1 = normalizeToolName t2) :
    checkToolAccess fw ⟨sid, t1⟩ now = checkToolAccess fw ⟨sid, t2⟩ now := by
  unfold checkToolAccess
  dsimp only
  rw [h]

/-- Witness for the C7 amendment: `Exec!` and `exec?` share the normal form
`exec_` and receive identical decisions. -/
theorem C7_amended_normalization_congruence_witness :
    checkToolAccess fwDemo ⟨"sess-1", "Exec!"⟩ 200
      = checkToolAccess fwDemo ⟨"sess-1", "exec?"⟩ 200 :=
  C7_amended_normalization_congruence fwDemo "sess-1" 200 "Exec!" "exec?" (by decide)

/-! ## Claim C9 -/

/-- C9 counterexample: a workflow already in the terminal state `completed`
*does* change status when `cancelWorkflow` is applied — the code sets
`cancelled` unconditionally — refuting "a workflow already in a terminal
state never changes status as a result of either operation". -/
theorem C9_cex :
    wfCompleted.status = WfStatus.completed
    ∧ (cancelWorkflow wfCompleted "no longer needed" 5).status
        ≠ wfCompleted.status := by
  decide

/-- C9 (amended): cancellation and timeout-expiry are idempotent —
re-applying `checkExpiredWorkflows`'s per-workflow transition is a no-op,
and re-applying `cancelWorkflow` changes neither the workflow status nor
any step status; `checkExpiredWorkflows` never touches a workflow in a
terminal state; but `cancelWorkflow` unconditionally re-marks the workflow
`cancelled`, so a `completed` or `failed` workflow does change status under
cancellation (its step statuses are still preserved once no step is
pending/in-progress). -/
theorem C9_amended :
    (∀ wf t now, expireWorkflow (expireWorkflow wf t now) t now
        = expireWorkflow wf t now)
    ∧ (∀ wf t now,
        wf.status = WfStatus.completed ∨ wf.status = WfStatus.failed
          ∨ wf.status = WfStatus.cancelled →
        expireWorkflow wf t now = wf)
    ∧ (∀ wf r1 n1 r2 n2,
        (cancelWorkflow (cancelWorkflow wf r1 n1) r2 n2).status
          = (cancelWorkflow wf r1 n1).status
        ∧ (cancelWorkflow (cancelWorkflow wf r1 n1) r2 n2).steps.map LStep.status
          = (cancelWorkflow wf r1 n1).steps.map LStep.status)
    ∧ (∀ wf r n, (cancelWorkflow wf r n).status = WfStatus.cancelled) := by
  refine ⟨?_, ?_, ?_, ?_⟩
  · intro wf t now
    by_cases hc : (wf.status == WfStatus.inProgress
        && decide (now - wf.createdAt > t * 1000)) = true
    · unfold expireWorkflow
      simp [hc]
    · unfold expireWorkflow
      simp [hc]
  · intro wf t now hterm
    unfold expireWorkflow
    have : (wf.status == WfStatus.inProgress) = false := by
      rcases hterm with h | h | h <;> simp [h]
    simp [this]
  · intro wf r1 n1 r2 n2
    refine ⟨rfl, ?_⟩
    unfold cancelWorkflow
    simp only [List.map_map]
    apply List.map_congr_left
    intro s _
    by_cases h : (s.status == StepStatus.pending
        || s.status == StepStatus.inProgress) = true
    · simp [Function.comp, h]
    · simp [Function.comp, h]
  · intro wf r n
    rfl

/-- Witness for the C9 amendment at a concrete terminal workflow. -/
theorem C9_amended_witness :
    expireWorkflow wfCompleted 3600 999999999 = wfCompleted :=
  C9_amended.2.1 wfCompleted 3600 999999999 (Or.inl rfl)

/-! ## Claim C10 -/

/-- C10: whenever the session exists, its `pendingApprovals` list contains
an approval with the given id, and the rate limiter admits the call,
`ToolFirewall.resolveApproval` returns `true` and overwrites that
approval's status, `resolvedBy` and `resolvedAt` according to `approved` —
with *no* hypothesis on the approval's previous status, so a previously
approved, denied or expired approval is re-resolved just the same and a
later call can reverse an earlier one. -/
theorem C10_resolution_overwrites (fw : ToolFirewall)
    (sid apId resolver : String) (approved : Bool) (now : Nat)
    (policy : SessionPolicy)
    (hpol : mapGet fw.sessionPolicies sid = some policy)
    (hfind : (policy.pendingApprovals.find? (fun a => a.id == apId)).isSome = true)
    (hrate : (rateCheck fw.rateAttempts sid now).1 = true) :
    (fwResolveApproval fw sid apId approved resolver now).1 = true
    ∧ ∃ policy',
        mapGet (fwResolveApproval fw sid apId approved resolver now).2.sessionPolicies sid
          = some policy'
        ∧ policy'.pendingApprovals =
            updateFirst (fun a => a.id == apId)
              (fun a =>
                { a with
                  status := if approved then ApprovalStatus.approved
                            else ApprovalStatus.denied
                  resolvedBy := some resolver
                  resolvedAt := some now })
              policy.pendingApprovals
        ∧ ∃ a', policy'.pendingApprovals.find? (fun a => a.id == apId) = some a'
            ∧ a'.status = (if approved then ApprovalStatus.approved
                           else ApprovalStatus.denied)
            ∧ a'.resolvedBy = some resolver
            ∧ a'.resolvedAt = some now := by
  rcases ha : policy.pendingApprovals.find? (fun a => a.id == apId) with _ | a
  · rw [ha] at hfind; cases hfind
  · have hresult :
        fwResolveApproval fw sid apId approved resolver now
          = (true,
             { fw with
               rateAttempts := (rateCheck fw.rateAttempts sid now).2
               sessionPolicies :=
                 updateFirst (fun e => e.1 == sid)
                   (fun e => (e.1,
                     { e.2 with
                       pendingApprovals :=
                         updateFirst (fun a => a.id == apId)
                           (fun a =>
                             { a with
                               status := if approved then ApprovalStatus.approved
                                         else ApprovalStatus.denied
                               resolvedBy := some resolver
                               resolvedAt := some now })
                           e.2.pendingApprovals }))
                   fw.sessionPolicies }) := by
      unfold fwResolveApproval
      rw [hpol]
      simp only [hrate, Bool.not_true, Bool.false_eq_true, if_false, ha]
    rw [hresult]
    refine ⟨rfl, ?_⟩
    refine ⟨_, mapGet_updateFirst_key fw.sessionPolicies sid
      (fun p =>
        { p with
          pendingApprovals :=
            updateFirst (fun a => a.id == apId)
              (fun a =>
                { a with
                  status := if approved then ApprovalStatus.approved
                            else ApprovalStatus.denied
                  resolvedBy := some resolver
                  resolvedAt := some now })
              p.pendingApprovals })
      policy hpol, rfl, ?_⟩
    have hpa := List.find?_some ha
    refine ⟨_, find?_updateFirst _ _ _ a ha hpa, rfl, rfl, rfl⟩

set_option maxRecDepth 4000 in
/-- Witness for C10: flipping an already-approved approval to denied. -/
theorem C10_resolution_overwrites_witness :
    (fwResolveApproval fwDemoA "sess-1" "ap-1" false "admin" 500).1 = true
    ∧ ∃ policy',
        mapGet (fwResolveApproval fwDemoA "sess-1" "ap-1" false "admin" 500).2.sessionPolicies "sess-1"
          = some policy'
        ∧ policy'.pendingApprovals =
            updateFirst (fun a => a.id == "ap-1")
              (fun a =>
                { a with
                  status := if false then ApprovalStatus.approved
                            else ApprovalStatus.denied
                  resolvedBy := some "admin"
                  resolvedAt := some 500 })
              ({ freshPolicy cfgDemo "sess-1" (some ⟨SourceKind.gmail, false⟩)
                  (some 45) 100 with
                 pendingApprovals := [apDemo] } : SessionPolicy).pendingApprovals
        ∧ ∃ a', policy'.pendingApprovals.find? (fun a => a.id == "ap-1") = some a'
            ∧ a'.status = (if false then ApprovalStatus.approved
                           else ApprovalStatus.denied)
            ∧ a'.resolvedBy = some "admin"
            ∧ a'.resolvedAt = some 500 :=
  C10_resolution_overwrites fwDemoA "sess-1" "ap-1" "admin" false 500
    ({ freshPolicy cfgDemo "sess-1" (some ⟨SourceKind.gmail, false⟩) (some 45) 100 with
       pendingApprovals := [apDemo] })
    (by decide) (by decide) (by decide)

/-! ## Step-counting lemmas for the workflow engine -/

theorem ipCount_updateFirst_le_succ (p : LStep → Bool) (f : LStep → LStep)
    (l : List LStep) : ipCount (updateFirst p f l) ≤ ipCount l + 1 := by
  induction l with
  | nil => simp [updateFirst, ipCount]
  | cons x xs ih =>
    by_cases h : p x = true
    · simp only [updateFirst, h, if_true]
      unfold ipCount
      by_cases h1 : ((f x).status == StepStatus.inProgress) = true
        <;> by_cases h2 : (x.status == StepStatus.inProgress) = true
        <;> simp [h1, h2, List.filter, ipCount] <;> omega
    · simp only [updateFirst, h, Bool.false_eq_true, if_false]
      unfold ipCount
      by_cases h2 : (x.status == StepStatus.inProgress) = true
        <;> simp [h2, List.filter, ipCount] <;> unfold ipCount at ih <;> omega

theorem ipCount_updateFirst_le (p : LStep → Bool) (f : LStep → LStep)
    (l : List LStep) (hf : ∀ x, ((f x).status == StepStatus.inProgress) = false) :
    ipCount (updateFirst p f l) ≤ ipCount l := by
  induction l with
  | nil => simp [updateFirst, ipCount]
  | cons x xs ih =>
    by_cases h : p x = true
    · simp only [updateFirst, h, if_true]
      unfold ipCount
      by_cases h2 : (x.status == StepStatus.inProgress) = true
        <;> simp [hf x, h2, List.filter, ipCount] <;> omega
    · simp only [updateFirst, h, Bool.false_eq_true, if_false]
      unfold ipCount
      by_cases h2 : (x.status == StepStatus.inProgress) = true
        <;> simp [h2, List.filter, ipCount] <;> unfold ipCount at ih <;> omega

theorem ipCount_updateFirst_found (p : LStep → Bool) (f : LStep → LStep)
    (l : List LStep) (a : LStep) (ha : l.find? p = some a)
    (hip : (a.status == StepStatus.inProgress) = true)
    (hf : ∀ x, ((f x).status == StepStatus.inProgress) = false) :
    ipCount (updateFirst p f l) + 1 ≤ ipCount l := by
  induction l with
  | nil => cases ha
  | cons x xs ih =>
    by_cases h : p x = true
    · rw [List.find?_cons_of_pos _ h] at ha
      cases ha
      simp only [updateFirst, h, if_true]
      unfold ipCount
      simp [hf a, hip, List.filter, ipCount]
    · rw [List.find?_cons_of_neg _ (by simp [h])] at ha
      simp only [updateFirst, h, Bool.false_eq_true, if_false]
      unfold ipCount
      by_cases h2 : (x.status == StepStatus.inProgress) = true
        <;> simp [h2, List.filter, ipCount]
        <;> have := ih ha <;> unfold ipCount at this <;> omega

theorem filter_len_zero {α : Type} (P : α → Bool) (l : List α)
    (h : ∀ x ∈ l, P x = false) : (l.filter P).length = 0 := by
  induction l with
  | nil => rfl
  | cons x xs ih =>
    have hx := h x (List.mem_cons_self _ _)
    simp only [List.filter_cons, hx, Bool.false_eq_true, if_false]
    exact ih (fun y hy => h y (List.mem_cons_of_mem _ hy))

theorem ipCount_map_zero (g : LStep → LStep) (l : List LStep)
    (hg : ∀ s, ((g s).status == StepStatus.inProgress) = false) :
    ipCount (l.map g) = 0 := by
  unfold ipCount
  apply filter_len_zero
  intro y hy
  rcases List.mem_map.mp hy with ⟨x, _, rfl⟩
  exact hg x

theorem ipCount_skip_map (l : List LStep) :
    ipCount (l.map (fun s =>
      if s.status == StepStatus.pending || s.status == StepStatus.inProgress
      then { s with status := StepStatus.skipped } else s)) = 0 := by
  apply ipCount_map_zero
  intro x
  by_cases h : (x.status == StepStatus.pending
      || x.status == StepStatus.inProgress) = true
  · simp [h]
  · cases hs : x.status <;> simp_all

theorem ipCount_create (wid : String) (actions : List PlannedAction) (now : Nat) :
    inProgressCount (createApprovalWorkflow wid actions now) = 0 := by
  unfold inProgressCount createApprovalWorkflow ipCount
  dsimp only
  generalize (actions.filter (fun a => a.requiresApproval)) = l
  induction l with
  | nil => rfl
  | cons x xs ih => simpa [List.filter_cons] using ih

theorem zip_map_self {α : Type} (g : α → α) (l : List α) :
    ∀ pr ∈ l.zip (l.map g), pr.2 = g pr.1 := by
  induction l with
  | nil => intro pr h; cases h
  | cons x xs ih =>
    intro pr h
    rcases h with _ | h
    · rfl
    · exact ih _ (by assumption)

theorem zip_updateFirst_map {α : Type} (P : α → Bool) (f g : α → α)
    (l : List α) :
    ∀ pr ∈ l.zip ((updateFirst P f l).map g), P pr.1 = false → pr.2 = g pr.1 := by
  induction l with
  | nil => intro pr h; cases h
  | cons x xs ih =>
    intro pr h hP
    by_cases hx : P x = true
    · simp only [updateFirst, hx, if_true, List.map_cons, List.zip_cons_cons] at h
      rcases h with _ | h
      · rw [hx] at hP; cases hP
      · exact zip_map_self g xs _ (by assumption)
    · simp only [updateFirst, hx, Bool.false_eq_true, if_false, List.map_cons,
        List.zip_cons_cons] at h
      rcases h with _ | h
      · rfl
      · exact ih _ (by assumption) hP

theorem zip_self_eq {α : Type} (l : List α) : ∀ pr ∈ l.zip l, pr.2 = pr.1 := by
  induction l with
  | nil => intro pr h; cases h
  | cons x xs ih =>
    intro pr h
    rcases h with _ | h
    · rfl
    · exact ih _ (by assumption)

theorem zip_updateFirst {α : Type} (P : α → Bool) (f : α → α) (l : List α) :
    ∀ pr ∈ l.zip (updateFirst P f l), P pr.1 = false → pr.2 = pr.1 := by
  induction l with
  | nil => intro pr h; cases h
  | cons x xs ih =>
    intro pr h hP
    by_cases hx : P x = true
    · simp only [updateFirst, hx, if_true, List.zip_cons_cons] at h
      rcases h with _ | h
      · rw [hx] at hP; cases hP
      · exact zip_self_eq xs _ (by assumption)
    · simp only [updateFirst, hx, Bool.false_eq_true, if_false,
        List.zip_cons_cons] at h
      rcases h with _ | h
      · rfl
      · exact ih _ (by assumption) hP

/-! ## Claim C2 -/

/-- C2 counterexample: the engine does not enforce the sequential-execution
invariant — after `startWorkflow`, resolving a *pending* (not the current
in-progress) step with `resolveApproval` advances the next pending step and
leaves two steps simultaneously `in_progress`. -/
theorem C2_cex :
    inProgressCount (startWorkflow wfDemo3 1) = 1
    ∧ (resolveApproval (startWorkflow wfDemo3 1) "step-2" true "operator" none 2).map
        (fun r => inProgressCount r.1) = some 2 := by
  decide

/-- C2 (amended): the at-most-one-`in_progress` invariant holds under
disciplined use: a created workflow has no `in_progress` step;
`startWorkflow` invoked when no step is `in_progress` yields at most one;
`resolveApproval` preserves the invariant provided the addressed step is
the one currently `in_progress` (or no step is); and cancellation and
expiry always preserve it.  Without the discipline the invariant can break
(see the counterexample). -/
theorem C2_amended :
    (∀ wid actions now, inProgressCount (createApprovalWorkflow wid actions now) = 0)
    ∧ (∀ wf now, inProgressCount wf = 0 → atMostOneInProgress (startWorkflow wf now))
    ∧ (∀ wf sid appr resolver comment now r,
        resolveApproval wf sid appr resolver comment now = some r →
        atMostOneInProgress wf →
        ((∃ s, wf.steps.find? (fun t => t.id == sid) = some s
            ∧ s.status = StepStatus.inProgress)
          ∨ inProgressCount wf = 0) →
        atMostOneInProgress r.1)
    ∧ (∀ wf reason now, inProgressCount (cancelWorkflow wf reason now) = 0)
    ∧ (∀ wf t now, atMostOneInProgress wf → atMostOneInProgress (expireWorkflow wf t now)) := by
  refine ⟨ipCount_create, ?_, ?_, ?_, ?_⟩
  · intro wf now h0
    unfold atMostOneInProgress inProgressCount startWorkflow
    dsimp only
    have := ipCount_updateFirst_le_succ
      (fun s => s.status == StepStatus.pending)
      (fun s => { s with status := StepStatus.inProgress }) wf.steps
    unfold inProgressCount at h0
    omega
  · intro wf sid appr resolver comment now r hr hinv hdisc
    -- peel the lookup guard
    rcases hfind : wf.steps.find? (fun s => s.id == sid) with _ | s0
    · rw [resolveApproval, hfind] at hr; cases hr
    · rw [resolveApproval, hfind] at hr
      dsimp only at hr
      by_cases hty : (s0.type == StepType.approval) = true
      · rw [if_pos hty] at hr
        cases hr
        -- the update of the addressed step never produces an in-progress step
        have hf : ∀ x : LStep,
            (((fun s => ({ s with
                status := if appr then StepStatus.completed else StepStatus.failed
                result := some { approved := appr, approvedBy := some resolver,
                                 approvedAt := some now, comment := comment } } : LStep)) x).status
              == StepStatus.inProgress) = false := by
          intro x; cases appr <;> rfl
        have hsteps1 : ipCount (updateFirst (fun s => s.id == sid)
            (fun s => { s with
              status := if appr then StepStatus.completed else StepStatus.failed
              result := some { approved := appr, approvedBy := some resolver,
                               approvedAt := some now, comment := comment } })
            wf.steps) = 0 := by
          rcases hdisc with ⟨s, hs, hip⟩ | h0
          · have hdec := ipCount_updateFirst_found (fun s => s.id == sid) _
              wf.steps s hs (by simp [hip]) hf
            unfold atMostOneInProgress inProgressCount at hinv
            omega
          · have := ipCount_updateFirst_le (fun s => s.id == sid) _ wf.steps hf
            unfold inProgressCount at h0
            omega
        unfold resolveApprovalCore atMostOneInProgress inProgressCount
        dsimp only
        by_cases hpc : (((updateFirst (fun s => s.id == sid)
            (fun s => { s with
              status := if appr then StepStatus.completed else StepStatus.failed
              result := some { approved := appr, approvedBy := some resolver,
                               approvedAt := some now, comment := comment } })
            wf.steps).filter (fun s =>
              s.status == StepStatus.pending || s.status == StepStatus.inProgress)).length == 0) = true
        · simp only [hpc, if_true]
          exact le_of_eq_of_le hsteps1 (by omega)
        · simp only [hpc, Bool.false_eq_true, if_false]
          by_cases happ : appr = true
          · rw [if_pos happ]
            dsimp only
            refine le_trans (ipCount_updateFirst_le_succ _ _ _) ?_
            omega
          · rw [if_neg happ]
            dsimp only
            have := ipCount_map_zero (fun s =>
              if s.status == StepStatus.pending || s.status == StepStatus.inProgress
              then { s with status := StepStatus.skipped } else s)
              (updateFirst (fun s => s.id == sid)
                (fun s => { s with
                  status := if appr then StepStatus.completed else StepStatus.failed
                  result := some { approved := appr, approvedBy := some resolver,
                                   approvedAt := some now, comment := comment } })
                wf.steps)
              (by
                intro x
                by_cases h : (x.status == StepStatus.pending
                    || x.status == StepStatus.inProgress) = true
                · simp [h]
                · cases hs : x.status <;> simp_all)
            omega
      · rw [if_neg (by simp_all)] at hr; cases hr
  · intro wf reason now
    unfold inProgressCount cancelWorkflow
    dsimp only
    apply ipCount_map_zero
    intro x
    by_cases h : (x.status == StepStatus.pending
        || x.status == StepStatus.inProgress) = true
    · simp [h]
    · cases hs : x.status <;> simp_all
  · intro wf t now h
    unfold expireWorkflow
    by_cases hc : (wf.status == WfStatus.inProgress
        && decide (now - wf.createdAt > t * 1000)) = true
    · simp only [hc, if_true]
      unfold atMostOneInProgress inProgressCount
      dsimp only
      have : ipCount (wf.steps.map (fun s =>
          if s.status == StepStatus.pending || s.status == StepStatus.inProgress
          then { s with status := StepStatus.failed,
                        error := some "Approval timeout exceeded" }
          else s)) = 0 := by
        apply ipCount_map_zero
        intro x
        by_cases hx : (x.status == StepStatus.pending
            || x.status == StepStatus.inProgress) = true
        · simp [hx]
        · cases hs : x.status <;> simp_all
      omega
    · simp only [hc, Bool.false_eq_true, if_false]
      exact h

/-- Witness for the C2 amendment: disciplined resolution of the current
in-progress step keeps the invariant. -/
theorem C2_amended_witness :
    atMostOneInProgress (startWorkflow wfDemo3 1)
    ∧ (∀ r, resolveApproval (startWorkflow wfDemo3 1) "step-1" true "operator" none 2
          = some r → atMostOneInProgress r.1) :=
  ⟨C2_amended.2.1 wfDemo3 1 (by decide),
   fun r hr => C2_amended.2.2.1 (startWorkflow wfDemo3 1) "step-1" true "operator"
     none 2 r hr (by decide)
     (Or.inl ⟨{ id := "step-1", name := "Approve: send_email",
                type := StepType.approval, status := StepStatus.inProgress,
                result := none, error := none }, by decide, rfl⟩)⟩

/-! ## Claim C4 -/

/-- C4: resolving with `approved = false` on an in-progress workflow with at
least one step still pending/in-progress fails the workflow, reports
`workflowComplete = true` with `allApproved = false`, leaves no step
pending or in-progress (so no further approvals are requested), and sets
every remaining pending/in-progress step other than the resolved one to
`skipped`. -/
theorem C4_denial_short_circuits (wf : LWorkflow) (sid resolver : String)
    (comment : Option String) (now : Nat) (r : LWorkflow × ResolveOutcome)
    (hwstat : wf.status = WfStatus.inProgress)
    (hr : resolveApproval wf sid false resolver comment now = some r)
    (hsome : ∃ s ∈ wf.steps,
        s.status = StepStatus.pending ∨ s.status = StepStatus.inProgress) :
    r.1.status = WfStatus.failed
    ∧ r.2.workflowComplete = true
    ∧ r.2.allApproved = false
    ∧ (∀ s ∈ r.1.steps,
        s.status ≠ StepStatus.pending ∧ s.status ≠ StepStatus.inProgress)
    ∧ (∀ pr ∈ wf.steps.zip r.1.steps,
        (pr.1.status = StepStatus.pending ∨ pr.1.status = StepStatus.inProgress) →
        pr.1.id ≠ sid → pr.2.status = StepStatus.skipped) := by
  rcases hfind : wf.steps.find? (fun s => s.id == sid) with _ | s0
  · rw [resolveApproval, hfind] at hr; cases hr
  · rw [resolveApproval, hfind] at hr
    dsimp only at hr
    by_cases hty : (s0.type == StepType.approval) = true
    swap
    · rw [if_neg (by simp_all)] at hr; cases hr
    rw [if_pos hty] at hr
    cases hr
    set f : LStep → LStep := fun s =>
      { s with
        status := if false then StepStatus.completed else StepStatus.failed
        result := some { approved := false, approvedBy := some resolver,
                         approvedAt := some now, comment := comment } } with hfdef
    have hfailmem : f s0 ∈ updateFirst (fun s => s.id == sid) f wf.steps :=
      firstMatch_mem_updateFirst (fun s => s.id == sid) f wf.steps s0 hfind
    have hfailcount : 0 < ((updateFirst (fun s => s.id == sid) f wf.steps).filter
        (fun s => s.status == StepStatus.failed)).length := by
      apply List.length_pos.mpr
      intro hnil
      have := List.filter_eq_nil_iff.mp hnil (f s0) hfailmem
      simp [hfdef] at this
    by_cases hpc : (((updateFirst (fun s => s.id == sid) f wf.steps).filter (fun s =>
        s.status == StepStatus.pending || s.status == StepStatus.inProgress)).length == 0) = true
    · -- no pending/in-progress step remains after marking the addressed step
      have hnone : ∀ x ∈ updateFirst (fun s => s.id == sid) f wf.steps,
          (x.status == StepStatus.pending || x.status == StepStatus.inProgress) = false := by
        intro x hx
        by_cases hcon : (x.status == StepStatus.pending
            || x.status == StepStatus.inProgress) = true
        · exfalso
          have hmemf : x ∈ (updateFirst (fun s => s.id == sid) f wf.steps).filter
              (fun s => s.status == StepStatus.pending || s.status == StepStatus.inProgress) :=
            List.mem_filter.mpr ⟨hx, hcon⟩
          have hlen := List.length_pos.mpr (List.ne_nil_of_mem hmemf)
          have hz : ((updateFirst (fun s => s.id == sid) f wf.steps).filter (fun s =>
              s.status == StepStatus.pending || s.status == StepStatus.inProgress)).length = 0 :=
            eq_of_beq hpc
          omega
        · simp only [Bool.not_eq_true] at hcon
          exact hcon
      unfold resolveApprovalCore
      dsimp only
      rw [← hfdef]
      simp only [hpc, if_true]
      have hgt : (((updateFirst (fun s => s.id == sid) f wf.steps).filter
          (fun s => s.status == StepStatus.failed)).length > 0) := hfailcount
      simp only [hgt, if_pos, gt_iff_lt]
      refine ⟨by trivial, by trivial, by trivial, ?_, ?_⟩
      · intro s hs
        have := hnone s hs
        cases h : s.status <;> simp_all
      · intro pr hpr hpip hpid
        have hP : ((fun s => s.id == sid) pr.1) = false := by simpa using hpid
        have heq := zip_updateFirst (fun s => s.id == sid) f wf.steps pr hpr hP
        have hmem2 := (List.of_mem_zip hpr).2
        rw [heq] at hmem2
        have := hnone pr.1 hmem2
        rcases hpip with h | h <;> simp [h] at this
    · -- denial path: every remaining pending/in-progress step is skipped
      unfold resolveApprovalCore
      dsimp only
      rw [← hfdef]
      simp only [hpc, Bool.false_eq_true, if_false]
      refine ⟨by trivial, by trivial, by trivial, ?_, ?_⟩
      · intro s hs
        rcases List.mem_map.mp hs with ⟨x, _, rfl⟩
        by_cases hx : (x.status == StepStatus.pending
            || x.status == StepStatus.inProgress) = true
        · simp [hx]
        · cases h : x.status <;> simp_all
      · intro pr hpr hpip hpid
        have hP : ((fun s => s.id == sid) pr.1) = false := by simpa using hpid
        have heq := zip_updateFirst_map (fun s => s.id == sid) f
          (fun s =>
            if s.status == StepStatus.pending || s.status == StepStatus.inProgress
            then { s with status := StepStatus.skipped } else s)
          wf.steps pr hpr hP
        rw [heq]
        rcases hpip with h | h <;> simp [h]

/-- Witness for C4: denying the first of two approval steps skips the
second and fails the workflow. -/
theorem C4_denial_short_circuits_witness :
    ∃ r, resolveApproval (startWorkflow wfDemo2 1) "step-1" false "operator" none 2
        = some r
      ∧ r.1.status = WfStatus.failed
      ∧ r.2.workflowComplete = true
      ∧ r.2.allApproved = false
      ∧ (∀ s ∈ r.1.steps,
          s.status ≠ StepStatus.pending ∧ s.status ≠ StepStatus.inProgress)
      ∧ (∀ pr ∈ (startWorkflow wfDemo2 1).steps.zip r.1.steps,
          (pr.1.status = StepStatus.pending ∨ pr.1.status = StepStatus.inProgress) →
          pr.1.id ≠ "step-1" → pr.2.status = StepStatus.skipped) := by
  refine ⟨_, rfl, ?_⟩
  exact C4_denial_short_circuits (startWorkflow wfDemo2 1) "step-1" "operator" none 2 _
    rfl rfl
    ⟨{ id := "step-2", name := "Approve: archive_email",
       type := StepType.approval, status := StepStatus.pending,
       result := none, error := none }, by decide, Or.inl rfl⟩

/-! ## Eviction-scan lemmas -/

theorem findOldest_fold_aux (m : List (String × SessionPolicy))
    (acc : Option (String × Nat)) (oid : String) (t : Nat)
    (h : m.foldl (fun acc e =>
      match acc with
      | none => some (e.1, e.2.createdAt)
      | some (_, t0) =>
        if e.2.createdAt < t0 then some (e.1, e.2.createdAt) else acc) acc
      = some (oid, t)) :
    (∀ e ∈ m, t ≤ e.2.createdAt)
    ∧ (acc = some (oid, t) ∨ ∃ e ∈ m, e.1 = oid ∧ e.2.createdAt = t)
    ∧ (∀ i0 t0, acc = some (i0, t0) → t ≤ t0) := by
  induction m generalizing acc with
  | nil =>
    simp only [List.foldl_nil] at h
    refine ⟨?_, Or.inl h, ?_⟩
    · intro e he
      cases he
    · intro i0 t0 h0
      rw [h0] at h
      cases h
      exact le_refl _
  | cons e m ih =>
    simp only [List.foldl_cons] at h
    rcases ih _ h with ⟨hmin, hsrc, hacc⟩
    rcases hacc0 : acc with _ | ⟨i0, t0⟩
    · -- acc was none: the new accumulator is (e.1, e.createdAt)
      rw [hacc0] at h hsrc
      have hle : t ≤ e.2.createdAt := by
        exact (ih _ h).2.2 e.1 e.2.createdAt rfl
      refine ⟨?_, ?_, ?_⟩
      · intro e' he'
        rcases he' with _ | he'
        · exact hle
        · exact hmin _ (by assumption)
      · rcases hsrc with heq | ⟨e', he', h1, h2⟩
        · cases heq
          exact Or.inr ⟨e, List.mem_cons_self _ _, rfl, rfl⟩
        · exact Or.inr ⟨e', List.mem_cons_of_mem _ he', h1, h2⟩
      · intro i1 t1 hbad
        cases hbad
    · rw [hacc0] at h hsrc
      dsimp only at h hsrc
      by_cases hlt : e.2.createdAt < t0
      · rw [if_pos hlt] at h hsrc
        have hle : t ≤ e.2.createdAt := (ih _ h).2.2 e.1 e.2.createdAt rfl
        refine ⟨?_, ?_, ?_⟩
        · intro e' he'
          rcases he' with _ | he'
          · exact hle
          · exact hmin _ (by assumption)
        · rcases hsrc with heq | ⟨e', he', h1, h2⟩
          · cases heq
            exact Or.inr ⟨e, List.mem_cons_self _ _, rfl, rfl⟩
          · exact Or.inr ⟨e', List.mem_cons_of_mem _ he', h1, h2⟩
        · intro i1 t1 hbad
          cases hbad
          exact le_trans hle (le_of_lt hlt)
      · rw [if_neg hlt] at h hsrc
        have hle0 : t ≤ t0 := (ih _ h).2.2 i0 t0 rfl
        refine ⟨?_, ?_, ?_⟩
        · intro e' he'
          rcases he' with _ | he'
          · exact le_trans hle0 (Nat.le_of_not_lt hlt)
          · exact hmin _ (by assumption)
        · rcases hsrc with heq | ⟨e', he', h1, h2⟩
          · exact Or.inl (hacc0 ▸ heq)
          · exact Or.inr ⟨e', List.mem_cons_of_mem _ he', h1, h2⟩
        · intro i1 t1 hbad
          cases hbad
          exact hle0

/-- The eviction scan returns an entry attaining the minimal creation
timestamp (first such entry in iteration order). -/
theorem findOldest_min (m : List (String × SessionPolicy)) (oid : String)
    (t : Nat) (h : findOldest m = some (oid, t)) :
    (∀ e ∈ m, t ≤ e.2.createdAt)
    ∧ ∃ e ∈ m, e.1 = oid ∧ e.2.createdAt = t := by
  have := findOldest_fold_aux m none oid t h
  refine ⟨this.1, ?_⟩
  rcases this.2.1 with heq | hex
  · cases heq
  · exact hex

/-- When the head's creation time is 0 nothing can beat it (strict `<` on
`Nat`), so the scan returns the head. -/
theorem findOldest_head_zero (e : String × SessionPolicy)
    (rest : List (String × SessionPolicy)) (h : e.2.createdAt = 0) :
    findOldest (e :: rest) = some (e.1, 0) := by
  unfold findOldest
  simp only [List.foldl_cons, h]
  generalize e.1 = i
  induction rest with
  | nil => rfl
  | cons x xs ih =>
    simp only [List.foldl_cons]
    have : ¬x.2.createdAt < 0 := Nat.not_lt_zero _
    simp only [this, if_false]
    exact ih

theorem cexStoreE_length : cexStoreE.length = 10000 := by
  simp [cexStoreE]

theorem cexStoreO_length : cexStoreO.length = 10000 := by
  simp [cexStoreO]

/-! ## Claim C5 -/

/-- C5 counterexample: a store at the 10,000-session capacity whose
strictly oldest session has the empty string as id.  The JS truthiness
check `if (oldestId)` treats the empty string as false, so *no* session is
evicted: the oldest session is still present (unchanged) after
`initializeSession`, refuting "exactly one session is evicted, namely the
oldest". -/
theorem C5_cex :
    cexStoreE.length = 10000
    ∧ cexStoreE.head? = some ("", mkPol 0)
    ∧ (mkPol 0).createdAt = 0
    ∧ (∀ e ∈ cexStoreE.tail, 0 < e.2.createdAt)
    ∧ mapGet (initializeSession fwCexE "fresh-session" none none 10000).sessionPolicies ""
        = some (mkPol 0) := by
  refine ⟨cexStoreE_length, rfl, rfl, ?_, ?_⟩
  · intro e he
    simp only [cexStoreE, List.tail_cons] at he
    rcases List.mem_map.mp he with ⟨i, _, rfl⟩
    simp [mkPol]
  · have hfold : findOldest cexStoreE = some ("", 0) :=
      findOldest_head_zero ("", mkPol 0) _ rfl
    have hge : fwCexE.sessionPolicies.length ≥ maxSessions := by
      show cexStoreE.length ≥ maxSessions
      rw [cexStoreE_length]
      norm_num [maxSessions]
    unfold initializeSession
    dsimp only
    rw [if_pos hge]
    have hCex : fwCexE.sessionPolicies = cexStoreE := rfl
    rw [hCex, hfold]
    have htr : truthyId (some ("", 0)) = false := rfl
    rw [htr]
    simp only [Bool.false_eq_true, if_false]
    rw [mapGet_mapSet_ne cexStoreE "fresh-session" ""
      (freshPolicy fwCexE.config "fresh-session" none none 10000) (by decide)]
    rfl

/-- C5 (amended): whenever `initializeSession` runs with the store at
capacity and the first entry attaining the minimal creation timestamp has a
*non-empty* id, exactly that oldest session is evicted and the new session
is inserted: the resulting store is `mapSet (mapDelete store oldest) sid
fresh`, the oldest entry's timestamp is minimal, the new session is always
present afterwards, and every session other than the evicted one and the
new id is looked up unchanged.  (With an empty-string oldest id the
truthiness guard skips eviction — see the counterexample — and the new
session is still inserted.) -/
theorem C5_amended (fw : ToolFirewall) (sid : String)
    (prov : Option EmailProvenance) (rs : Option Nat) (now : Nat)
    (oid : String) (t : Nat)
    (hcap : maxSessions ≤ fw.sessionPolicies.length)
    (hfind : findOldest fw.sessionPolicies = some (oid, t))
    (hne : oid ≠ "") :
    (∀ e ∈ fw.sessionPolicies, t ≤ e.2.createdAt)
    ∧ (∃ e ∈ fw.sessionPolicies, e.1 = oid ∧ e.2.createdAt = t)
    ∧ (initializeSession fw sid prov rs now).sessionPolicies
        = mapSet (mapDelete fw.sessionPolicies oid) sid
            (freshPolicy fw.config sid prov rs now)
    ∧ mapGet (initializeSession fw sid prov rs now).sessionPolicies sid
        = some (freshPolicy fw.config sid prov rs now)
    ∧ (∀ k, k ≠ oid → k ≠ sid →
        mapGet (initializeSession fw sid prov rs now).sessionPolicies k
          = mapGet fw.sessionPolicies k) := by
  have hmin := findOldest_min fw.sessionPolicies oid t hfind
  have hstore : (initializeSession fw sid prov rs now).sessionPolicies
      = mapSet (mapDelete fw.sessionPolicies oid) sid
          (freshPolicy fw.config sid prov rs now) := by
    unfold initializeSession
    dsimp only
    rw [if_pos hcap, hfind]
    have htr : truthyId (some (oid, t)) = true := by
      simp [truthyId, hne]
    rw [htr]
    simp only [if_true, Option.map_some', Option.getD_some]
  refine ⟨hmin.1, hmin.2, hstore, ?_, ?_⟩
  · rw [hstore]
    exact mapGet_mapSet_self _ _ _
  · intro k hko hks
    rw [hstore, mapGet_mapSet_ne _ _ _ _ hks, mapGet_mapDelete_ne _ _ _ hko]

/-- Witness for the C5 amendment: a capacity-full store whose oldest
session has a normal id. -/
theorem C5_amended_witness :
    (∀ e ∈ fwCexO.sessionPolicies, 0 ≤ e.2.createdAt)
    ∧ (∃ e ∈ fwCexO.sessionPolicies, e.1 = "session-old" ∧ e.2.createdAt = 0)
    ∧ (initializeSession fwCexO "fresh-session" none none 10000).sessionPolicies
        = mapSet (mapDelete fwCexO.sessionPolicies "session-old") "fresh-session"
            (freshPolicy fwCexO.config "fresh-session" none none 10000)
    ∧ mapGet (initializeSession fwCexO "fresh-session" none none 10000).sessionPolicies
        "fresh-session"
        = some (freshPolicy fwCexO.config "fresh-session" none none 10000)
    ∧ (∀ k, k ≠ "session-old" → k ≠ "fresh-session" →
        mapGet (initializeSession fwCexO "fresh-session" none none 10000).sessionPolicies k
          = mapGet fwCexO.sessionPolicies k) :=
  C5_amended fwCexO "fresh-session" none none 10000 "session-old" 0
    (by show maxSessions ≤ cexStoreO.length
        rw [cexStoreO_length]; norm_num [maxSessions])
    (findOldest_head_zero ("session-old", mkPol 0) _ rfl)
    (by decide)

/-! ## Target-word boost lemmas -/

theorem boostFold_word (ts : List (List (List Char))) (acc : MixedScriptWord × Nat) :
    ((ts.foldl (fun acc t =>
      if templateTest t acc.1.word then
        ({ acc.1 with confidence := min 100 (acc.1.confidence + 20) },
         min 100 (acc.2 + 20))
      else acc) acc).1).word = acc.1.word := by
  induction ts generalizing acc with
  | nil => rfl
  | cons t ts ih =>
    simp only [List.foldl_cons]
    by_cases h : templateTest t acc.1.word = true
    · rw [if_pos h]
      exact ih _
    · rw [if_neg h]
      exact ih _

theorem boostWord_word (f : MixedScriptWord) (s : Nat) :
    (boostWord f s).1.word = f.word := by
  unfold boostWord
  exact boostFold_word attackTemplates (f, s)

theorem boostFold_noop (ts : List (List (List Char))) (f : MixedScriptWord)
    (s : Nat) (h : ∀ t ∈ ts, templateTest t f.word = false) :
    ts.foldl (fun acc t =>
      if templateTest t acc.1.word then
        ({ acc.1 with confidence := min 100 (acc.1.confidence + 20) },
         min 100 (acc.2 + 20))
      else acc) (f, s) = (f, s) := by
  induction ts with
  | nil => rfl
  | cons t ts ih =>
    simp only [List.foldl_cons]
    rw [if_neg (by simp [h t (List.mem_cons_self _ _)])]
    exact ih (fun t' ht' => h t' (List.mem_cons_of_mem _ ht'))

theorem no_match_of_countTargetMatches_zero (w : List Char)
    (h : countTargetMatches w = 0) :
    ∀ t ∈ attackTemplates, templateTest t w = false := by
  intro t ht
  unfold countTargetMatches at h
  have hnil := List.length_eq_zero.mp h
  by_cases hm : templateTest t w = true
  · exfalso
    have : t ∈ attackTemplates.filter (fun t => templateTest t w) :=
      List.mem_filter.mpr ⟨ht, hm⟩
    rw [hnil] at this
    cases this
  · simpa using hm

theorem boostWord_noop (f : MixedScriptWord) (s : Nat)
    (h : countTargetMatches f.word = 0) : boostWord f s = (f, s) := by
  unfold boostWord
  exact boostFold_noop attackTemplates f s
    (no_match_of_countTargetMatches_zero f.word h)

theorem boostAll_noop (fs : List MixedScriptWord) (s : Nat)
    (h : ∀ f ∈ fs, countTargetMatches f.word = 0) : boostAll fs s = (fs, s) := by
  induction fs generalizing s with
  | nil => rfl
  | cons f fs ih =>
    unfold boostAll
    dsimp only
    rw [boostWord_noop f s (h f (List.mem_cons_self _ _))]
    rw [ih s (fun f' hf' => h f' (List.mem_cons_of_mem _ hf'))]

theorem boostAll_words (fs : List MixedScriptWord) (s : Nat) :
    ((boostAll fs s).1).map (fun f => f.word) = fs.map (fun f => f.word) := by
  induction fs generalizing s with
  | nil => rfl
  | cons f fs ih =>
    unfold boostAll
    dsimp only
    simp only [List.map_cons]
    rw [boostWord_word f s, ih]

theorem boostFold_score (ts : List (List (List Char))) (f : MixedScriptWord)
    (s : Nat) :
    (ts.foldl (fun acc t =>
      if templateTest t acc.1.word then
        ({ acc.1 with confidence := min 100 (acc.1.confidence + 20) },
         min 100 (acc.2 + 20))
      else acc) (f, s)).2 =
      (if (ts.filter (fun t => templateTest t f.word)).length = 0 then s
       else min 100 (s + 20 * (ts.filter (fun t => templateTest t f.word)).length)) := by
  induction ts generalizing f s with
  | nil => simp
  | cons t ts ih =>
    simp only [List.foldl_cons, List.filter_cons]
    by_cases h : templateTest t f.word = true
    · rw [if_pos h, if_pos h]
      rw [ih]
      dsimp only
      simp only [List.length_cons]
      by_cases hn : (ts.filter (fun t => templateTest t f.word)).length = 0
      · rw [if_pos hn, if_neg (by omega)]
        omega
      · rw [if_neg hn, if_neg (by omega)]
        omega
    · rw [if_neg h, if_neg h]
      exact ih f s

theorem boostWord_score (f : MixedScriptWord) (s : Nat) :
    (boostWord f s).2 =
      (if countTargetMatches f.word = 0 then s
       else min 100 (s + 20 * countTargetMatches f.word)) := by
  unfold boostWord countTargetMatches
  exact boostFold_score attackTemplates f s

theorem boostAll_score (fs : List MixedScriptWord) (s : Nat) :
    min 100 ((boostAll fs s).2) = min 100 (s + 20 * totalBoostMatches fs) := by
  induction fs generalizing s with
  | nil => simp [boostAll, totalBoostMatches]
  | cons f fs ih =>
    unfold boostAll
    dsimp only
    rw [ih]
    rw [boostWord_score]
    have htm : totalBoostMatches (f :: fs)
        = countTargetMatches f.word + totalBoostMatches fs := by
      simp [totalBoostMatches]
    rw [htm]
    by_cases hc : countTargetMatches f.word = 0
    · rw [if_pos hc]
      omega
    · rw [if_neg hc]
      omega

/-! ## Claim C6 -/

/-- C6 counterexample: four mixed-script words `aб` (Latin + Cyrillic,
confidence 0.9 each, no target-word match) give the analyzer score
`min(50, 4·15) + round(40·0.9) = 50 + 36 = 86`, whereas the claimed
formula `min(100, 15·4 + 40·0.9)` gives 96.  The instantiated
word-character predicate agrees with `\p{L}` on every character of the
text (ASCII letters, the Cyrillicletter б, spaces). -/
theorem C6_cex :
    (analyzeScriptMixing cyrWordChar ("aб aб aб aб".data)).mixedScriptWords.length = 4
    ∧ confSum (analyzeScriptMixing cyrWordChar ("aб aб aб aб".data)).mixedScriptWords = 360
    ∧ ((360 : ℚ) / (100 * 4) = 9/10)
    ∧ (analyzeScriptMixing cyrWordChar ("aб aб aб aб".data)).suspicionScore = 86
    ∧ specScriptScore 4 (9/10) = 96 := by
  refine ⟨by decide, by decide, by norm_num, by decide, ?_⟩
  unfold specScriptScore jsRound
  have h40 : (40 : ℚ) * (9/10) + 1/2 = 73/2 := by norm_num
  rw [h40]
  have hfl : ⌊(73/2 : ℚ)⌋ = 36 := by
    rw [Int.floor_eq_iff]
    norm_num
  rw [hfl]
  norm_num

/-- C6 (amended): for every text, the suspicion score equals
`min(100, min(50, 15·findingCount) + round(40·meanConfidence) +
20·boostMatches)`, where the findings and the mean confidence are those of
the word scan BEFORE the target-word boost loop runs (the mean is taken
first and later confidence boosts do not feed back into it), and
`boostMatches` counts finding/attack-pattern matches.  The count term
saturates at 50 on its own, unlike the claimed `min(100, 15·count +
40·mean)`.  With no finding the score is 0; the reported findings carry
the same words as the scan; `isSuspicious` holds exactly when the final
score is ≥25 or at least one finding exists (`scaledRound40` is
`round(40·mean)` computed exactly on the 100-scaled confidences). -/
theorem C6_amended (iw : Char → Bool) (text : List Char) :
    ((scanFindings iw text).isEmpty = true →
      (analyzeScriptMixing iw text).suspicionScore = 0
      ∧ (analyzeScriptMixing iw text).isSuspicious = false)
    ∧ ((scanFindings iw text).isEmpty = false →
      (analyzeScriptMixing iw text).suspicionScore =
        min 100 (min 50 (15 * (scanFindings iw text).length)
          + scaledRound40 (confSum (scanFindings iw text))
              ((scanFindings iw text).length)
          + 20 * totalBoostMatches (scanFindings iw text)))
    ∧ ((analyzeScriptMixing iw text).mixedScriptWords.map (fun f => f.word)
        = (scanFindings iw text).map (fun f => f.word))
    ∧ (analyzeScriptMixing iw text).isSuspicious =
        (decide ((analyzeScriptMixing iw text).suspicionScore ≥ 25)
          || !(analyzeScriptMixing iw text).mixedScriptWords.isEmpty) := by
  have hana : analyzeScriptMixing iw text =
      assembleAnalysis
        (((splitWords iw text).filter (fun wp => 2 ≤ utf16Len wp.1)).foldl
          (fun acc wp => wordScriptsFold acc wp.1) [])
        (scanFindings iw text) := rfl
  rw [hana]
  generalize (((splitWords iw text).filter (fun wp => 2 ≤ utf16Len wp.1)).foldl
    (fun acc wp => wordScriptsFold acc wp.1) []) = S0
  generalize scanFindings iw text = F
  by_cases hF : F.isEmpty = true
  · have hFnil : F = [] := by
      cases F with
      | nil => rfl
      | cons a l => simp at hF
    subst hFnil
    exact ⟨fun _ => ⟨rfl, rfl⟩, fun hco => absurd hco (by decide), rfl, rfl⟩
  · rw [assembleAnalysis, if_neg hF]
    dsimp only
    refine ⟨fun hco => absurd hco hF, fun _ => ?_, boostAll_words F _, rfl⟩
    exact boostAll_score F _

/-- Witness for the C6 amendment at the single homoglyph word `lоgin`
(Cyrillic `о`): one finding at confidence 0.9 matching one attack pattern,
so the score is `min(100, 15 + round(36) + 20) = 71`. -/
theorem C6_amended_witness :
    (scanFindings cyrWordChar ("lоgin".data)).isEmpty = false
    ∧ totalBoostMatches (scanFindings cyrWordChar ("lоgin".data)) = 1
    ∧ ((scanFindings cyrWordChar ("lоgin".data)).isEmpty = false →
        (analyzeScriptMixing cyrWordChar ("lоgin".data)).suspicionScore =
          min 100 (min 50 (15 * (scanFindings cyrWordChar ("lоgin".data)).length)
            + scaledRound40 (confSum (scanFindings cyrWordChar ("lоgin".data)))
                ((scanFindings cyrWordChar ("lоgin".data)).length)
            + 20 * totalBoostMatches (scanFindings cyrWordChar ("lоgin".data))))
    ∧ (analyzeScriptMixing cyrWordChar ("lоgin".data)).suspicionScore = 71 :=
  ⟨by decide, by decide, (C6_amended cyrWordChar ("lоgin".data)).2.1, by decide⟩

/-! ## Sanitizer fixpoint lemmas -/

theorem normalizeEncoding_fold_fix (conf : List (String × String))
    (y : List Char) (m : Bool)
    (h : ∀ kv ∈ conf, infixCheck kv.1.data y = false) :
    (conf.foldl
      (fun acc kv =>
        if infixCheck kv.1.data acc.1 then
          (replaceAllL kv.1.data kv.2.data acc.1, true)
        else acc)
      (y, m)).1 = y := by
  induction conf generalizing m with
  | nil => rfl
  | cons kv conf ih =>
    simp only [List.foldl_cons]
    rw [if_neg (by simp [h kv (List.mem_cons_self _ _)])]
    exact ih _ (fun kv' hkv' => h kv' (List.mem_cons_of_mem _ hkv'))

theorem normalizeEncoding_fix (nfkc : List Char → List Char)
    (conf : List (String × String)) (y : List Char)
    (h1 : nfkc y = y) (h2 : ∀ kv ∈ conf, infixCheck kv.1.data y = false) :
    (normalizeEncoding nfkc conf y).1 = y := by
  unfold normalizeEncoding
  dsimp only
  rw [h1]
  exact normalizeEncoding_fold_fix conf y _ h2

/-! ## Claim C8 -/

/-- C8 counterexample: sanitization is not idempotent on its own output.
For the plain input `"a\n\n> q"` the first pass extracts the quoted block
and returns the body text `"a\n"` (the blank separator line survives as a
trailing newline); re-sanitizing that body text trims it to `"a"`.  The
Unicode normalizer is instantiated with the identity, which is what real
NFKC is on these ASCII strings, and the confusables table is the
in-source fallback (none of its keys occurs here). -/
theorem C8_cex :
    (sanitizeContentPlain cyrWordChar (fun l => l) fallbackConfusables
      (some "a\n\n> q") 100).bodyText = "a\n"
    ∧ (sanitizeContentPlain cyrWordChar (fun l => l) fallbackConfusables
        (some ((sanitizeContentPlain cyrWordChar (fun l => l) fallbackConfusables
          (some "a\n\n> q") 100).bodyText)) 100).bodyText
      ≠ (sanitizeContentPlain cyrWordChar (fun l => l) fallbackConfusables
          (some "a\n\n> q") 100).bodyText := by
  decide

/-- C8 (amended): a second sanitization pass is the identity on body texts
that are already canonical — fixed by the normalizer, containing no
confusable key, no zero-width/hidden/BiDi-stripped characters, no
collapsible whitespace runs, trimmed, quote-free, and within the length
budget.  First-pass outputs satisfy these except in two cases the
counterexample exhibits: quote extraction can leave a trailing newline
that the second pass trims, and the appended truncation marker can push
the text over the budget and be re-truncated. -/
theorem C8_amended (iw : Char → Bool) (nfkc : List Char → List Char)
    (confusables : List (String × String)) (y : String) (L : Nat)
    (h1 : nfkc y.data = y.data)
    (h2 : ∀ kv ∈ confusables, infixCheck kv.1.data y.data = false)
    (h3 : y.data.all (fun c => !isZeroWidthChar c && !isHiddenUnicodeChar c) = true)
    (h4 : (analyzeBiDi y.data).suspiciousOverrides = false
        ∨ y.data.all (fun c => !isBidiOverrideChar c) = true)
    (h5 : collapseRuns isHorizWs 3 [' ', ' '] y.data = y.data)
    (h6 : collapseRuns (fun c => c = '\n') 4 ['\n', '\n', '\n'] y.data = y.data)
    (h7 : jsTrim y.data = y.data)
    (h8 : (extractQuotedBlocks y.data).1 = y.data)
    (h9 : utf16Len y.data ≤ L) :
    (sanitizeContentPlain iw nfkc confusables (some y) L).bodyText = y := by
  unfold sanitizeContentPlain
  dsimp only
  simp only [Option.getD_some]
  rw [normalizeEncoding_fix nfkc confusables y.data h1 h2]
  have hall := List.all_eq_true.mp h3
  have hzw : y.data.filter (fun c => !isZeroWidthChar c) = y.data := by
    apply List.filter_eq_self.mpr
    intro c hc
    exact (Bool.and_eq_true _ _ |>.mp (hall c hc)).1
  have hhid : y.data.filter (fun c => !isHiddenUnicodeChar c) = y.data := by
    apply List.filter_eq_self.mpr
    intro c hc
    exact (Bool.and_eq_true _ _ |>.mp (hall c hc)).2
  rw [hzw, hhid]
  have hbidi : (sanitizeBiDi y.data (analyzeBiDi y.data)).1 = y.data := by
    unfold sanitizeBiDi
    rcases h4 with h4 | h4
    · rw [h4]
      simp
    · by_cases hs : (analyzeBiDi y.data).suspiciousOverrides = true
      · rw [hs]
        dsimp only
        rw [List.filter_eq_self.mpr (fun c hc => List.all_eq_true.mp h4 c hc)]
        simp
      · have hs' : (analyzeBiDi y.data).suspiciousOverrides = false := by
          simpa using hs
        rw [hs']
        simp
  rw [hbidi, h5, h6, h7, h8]
  unfold truncateStep
  rw [if_neg (by omega)]

/-- Witness for the C8 amendment: an already-canonical body text is fixed
by a further sanitization pass. -/
theorem C8_amended_witness :
    (sanitizeContentPlain cyrWordChar (fun l => l) fallbackConfusables
      (some "hello world") 100).bodyText = "hello world" :=
  C8_amended cyrWordChar (fun l => l) fallbackConfusables "hello world" 100
    rfl (by decide) (by decide) (Or.inl (by decide)) (by decide) (by decide)
    (by decide) (by decide) (by decide)

end MailGuard
